import Mathlib

/-!
# video-processor: a verification development of `main.go`

The program converts the files matched by a glob pattern to MP4 by calling
`ffmpeg`, optionally overlaying a watermark, one goroutine per file, the
goroutines gated by a buffered channel used as a counting semaphore.

Modelling conventions.

* A Go `string` is a Lean `String`, read as its sequence of characters.  The
  bytes `'.'`, `'/'` and `'\\'` that `filepath.Ext` scans for are ASCII and
  never occur inside a multi-byte UTF-8 sequence, so scanning characters and
  scanning bytes find the same position in every valid UTF-8 path.
* Go `int` / `int64` values are `Int`; no arithmetic in the program can
  overflow (the only arithmetic is `counter++` on counters bounded by the
  number of matched files).
* The Go standard library is not part of the repository.  `filepath.Ext`,
  `strings.ToLower` and `strings.TrimSuffix` are transcribed from the Go
  sources; the Unicode case table, `filepath.Join` and `filepath.Base` are
  parameters (`Platform`).
-/

namespace VideoProcessor

/-! ## Standard-library functions used by the program -/

/-- The operating system the binary is built for: it fixes `os.IsPathSeparator`. -/
inductive GOOS where
  | unix
  | windows
  deriving DecidableEq, Repr

/-- Go `os.IsPathSeparator`: `'/'` everywhere, and also `'\\'` on Windows. -/
def IsPathSeparator (goos : GOOS) (c : Char) : Bool :=
  match goos with
  | GOOS.unix => c == '/'
  | GOOS.windows => c == '\\' || c == '/'

/-- The loop of Go `filepath.Ext`:
`for i := len(path) - 1; i >= 0 && !os.IsPathSeparator(path[i]); i-- { if path[i] == '.' { return path[i:] } }; return ""`.
The argument `n` is `i + 1`. -/
def extLoop (goos : GOOS) (path : List Char) : Nat → List Char
  | 0 => []
  | i + 1 =>
    match path[i]? with
    | none => []
    | some c =>
      if IsPathSeparator goos c then []
      else if c == '.' then path.drop i
      else extLoop goos path i

/-- Go `filepath.Ext`. -/
def Ext (goos : GOOS) (path : String) : String :=
  ⟨extLoop goos path.data path.data.length⟩

/-- The ASCII branch of Go `unicode.ToLower`: `if 'A' <= r && r <= 'Z' { r += 'a' - 'A' }`. -/
def asciiToLower (c : Char) : Char :=
  if 65 ≤ c.toNat ∧ c.toNat ≤ 90 then Char.ofNat (c.toNat + 32) else c

/-- Go `unicode.ToLower`: ASCII runes are mapped by arithmetic, the others through
the Unicode case table, which is the parameter `caseTable`. -/
def unicodeToLower (caseTable : Char → Char) (r : Char) : Char :=
  if r.toNat ≤ 127 then asciiToLower r else caseTable r

/-- Go `strings.ToLower`: an ASCII-only string without an upper-case letter is
returned as it is, an ASCII-only string is mapped letter by letter, and any other
string goes through `strings.Map(unicode.ToLower, s)`. -/
def ToLower (caseTable : Char → Char) (s : String) : String :=
  let isASCII := s.data.all (fun c => decide (c.toNat < 128))
  let hasUpper := s.data.any (fun c => decide (65 ≤ c.toNat ∧ c.toNat ≤ 90))
  if isASCII then
    if !hasUpper then s else ⟨s.data.map asciiToLower⟩
  else ⟨s.data.map (unicodeToLower caseTable)⟩

/-- Go `strings.TrimSuffix`: `if HasSuffix(s, suffix) { return s[:len(s)-len(suffix)] }; return s`. -/
def TrimSuffix (s suffix : String) : String :=
  if suffix.data.isSuffixOf s.data then ⟨s.data.take (s.data.length - suffix.data.length)⟩ else s

/-! ## `isVideoFile` (main.go, lines 225-236) -/

/-- The slice `videoExtensions` of `isVideoFile`. -/
def videoExtensions : List String := [".mp4", ".mov", ".avi", ".mkv", ".flv", ".wmv"]

/-- The `for _, videoExt := range videoExtensions` loop of `isVideoFile`. -/
def isVideoLoop (ext : String) : List String → Bool
  | [] => false
  | videoExt :: rest => if ext == videoExt then true else isVideoLoop ext rest

/-- Source function `isVideoFile`. -/
def isVideoFile (goos : GOOS) (caseTable : Char → Char) (filename : String) : Bool :=
  let ext := ToLower caseTable (Ext goos filename)
  isVideoLoop ext videoExtensions

/-! ### The extension as the specification words it -/

/-- The final element of a path: the characters after its last separator. -/
def finalElement (goos : GOOS) (path : List Char) : List Char :=
  (path.reverse.takeWhile (fun c => !IsPathSeparator goos c)).reverse

/-- The suffix of `elem` that starts at its last `'.'`, empty when `elem` has no `'.'`. -/
def lastDotSuffix (elem : List Char) : List Char :=
  if '.' ∈ elem then (elem.reverse.takeWhile (fun c => c != '.')).reverse.cons '.' else []

/-- The extension in the specification's words: the suffix starting at the last
`'.'` of the final path element, empty if there is none. -/
def extSpec (goos : GOOS) (path : String) : String :=
  ⟨lastDotSuffix (finalElement goos path.data)⟩

/-- The ASCII upper-casing of a letter. -/
def asciiToUpper (c : Char) : Char :=
  if 97 ≤ c.toNat ∧ c.toNat ≤ 122 then Char.ofNat (c.toNat - 32) else c

/-- Rune `b` is rune `a` with its ASCII case possibly changed: `b` is `a`, or the ASCII
upper-casing or lower-casing of `a`.  A rune outside ASCII is related to itself only. -/
def CaseChange (a b : Char) : Prop :=
  b = a ∨ b = asciiToUpper a ∨ b = asciiToLower a

/-- Runes `a` and `b` have the same lower-case form under `unicode.ToLower`. -/
def SameLower (caseTable : Char → Char) (a b : Char) : Prop :=
  unicodeToLower caseTable b = unicodeToLower caseTable a

/-- Entries of the lower-case table of Go `unicode.ToLower` outside ASCII: U+0130 (capital
I with dot above) maps to `'i'`, U+212A (Kelvin sign) maps to `'k'`, and U+0131 (dotless
small i), being lower case, maps to itself, as does every rune not listed here. -/
def goLowerEntries (r : Char) : Char :=
  if r.toNat = 0x130 then 'i'
  else if r.toNat = 0x212A then 'k'
  else r

/-- Entries of Go `unicode.ToUpper`: ASCII small letters map to capitals, and U+0131
(dotless small i) maps to `'I'`; the runes used here have no other entry. -/
def goUpperEntries (r : Char) : Char :=
  if r.toNat = 0x131 then 'I' else asciiToUpper r

/-! ## The encoder command lines (main.go, lines 145-223) -/

/-- Decimal rendering of a Go integer, as the verb `%d` prints it. -/
def formatInt (n : Int) : String :=
  match n with
  | Int.ofNat m => Nat.repr m
  | Int.negSucc m => "-" ++ Nat.repr (m + 1)

/-- An operand of `fmt.Sprintf`. -/
inductive FmtArg where
  | int (n : Int)
  | str (s : String)

/-- Go `fmt.Sprintf`, for the verbs `%d` (integer operand) and `%s` (string
operand) that the program uses: the format is copied, each verb replaced by the
next operand.  Other verbs and mismatched operands do not occur in the program
and are copied as they stand. -/
def sprintfLoop : List Char → List FmtArg → List Char
  | [], _ => []
  | '%' :: 'd' :: rest, FmtArg.int n :: args => (formatInt n).data ++ sprintfLoop rest args
  | '%' :: 's' :: rest, FmtArg.str s :: args => s.data ++ sprintfLoop rest args
  | c :: rest, args => c :: sprintfLoop rest args

/-- Go `fmt.Sprintf` on strings. -/
def Sprintf (format : String) (args : List FmtArg) : String :=
  ⟨sprintfLoop format.data args⟩

/-- An `exec.Command(name, args...)` value. -/
structure Cmd where
  name : String
  args : List String
  deriving DecidableEq, Repr

/-- The command built by source function `convertToMP4` (lines 158-175). -/
def convertToMP4 (inputPath outputPath : String) (fileSize crfThreshold : Int) : Cmd :=
  let args := ["-i", inputPath, "-c:v", "libx264", "-c:a", "copy"]
  let args := if fileSize > crfThreshold then
      (args ++ ["-preset", "veryslow"]) ++ ["-crf", "28"]
    else args
  let args := args ++ [outputPath]
  { name := "ffmpeg", args := args }

/-- The filter graph of `addWatermarkAndConvertToMP4` (line 195). -/
def watermarkFilter (width height : Int) (x y : String) : String :=
  Sprintf "[1:v] scale=%d:%d [wm]; [0:v][wm] overlay=%s:%s"
    [FmtArg.int width, FmtArg.int height, FmtArg.str x, FmtArg.str y]

/-- The command built by source function `addWatermarkAndConvertToMP4` (lines 191-211). -/
def addWatermarkAndConvertToMP4 (inputPath outputPath watermarkPath : String)
    (width height : Int) (x y : String) (fileSize crfThreshold : Int) : Cmd :=
  let args := ["-i", inputPath, "-i", watermarkPath,
    "-filter_complex", watermarkFilter width height x y,
    "-c:v", "libx264", "-c:a", "copy", "-shortest"]
  let args := if fileSize > crfThreshold then
      (args ++ ["-preset", "veryslow"]) ++ ["-crf", "28"]
    else args
  let args := args ++ [outputPath]
  { name := "ffmpeg", args := args }

/-- The command built by source function `processVideo` (lines 146-154): the
plain variant when `watermarkPath == ""`, the watermark variant otherwise. -/
def processVideo (inputPath outputPath watermarkPath : String) (width height : Int)
    (x y : String) (fileSize crfThreshold : Int) : Cmd :=
  if watermarkPath == "" then
    convertToMP4 inputPath outputPath fileSize crfThreshold
  else
    addWatermarkAndConvertToMP4 inputPath outputPath watermarkPath width height x y
      fileSize crfThreshold

/-- String `sub` occurs in string `s` as a contiguous run of characters. -/
def Contains (s sub : String) : Prop := sub.data <:+: s.data

/-! ## The batch loop of `main` (main.go, lines 44-121)

`main` and the goroutines it starts are modelled as an interleaving of atomic
steps.  A step is chosen by an `Action`: the thread that moves, and the outcome
of the operating-system call the step makes, if it makes one.  Quantifying over
all lists of actions quantifies over all schedules and all outcomes of `os.Stat`,
`os.MkdirAll`, `copyFile` and `ffmpeg`.

* `counter++` on `failNum` and `successNum`, which several threads write without
  synchronisation, is two steps: a load of the counter and a store of the loaded
  value plus one.  `totalNum` is read and written by `main` only.
* `semaphore <- struct{}{}` can move only while the channel buffer holds fewer
  than `maxConcurrency` elements; `<-semaphore` removes one.  With capacity `0`
  a send needs a receiver that is already waiting, and the only receives of the
  program come after a send of the same goroutine, which the same guard expresses.
* `make(chan struct{}, n)` panics for `n < 0`.
* The model starts at line 44, with `matches` the result of `filepath.Glob`.
  `log.Printf` lines are not modelled.
-/

/-- The library functions and tables the model takes as parameters. -/
structure Platform where
  goos : GOOS
  caseTable : Char → Char
  Join : String → String → String
  Base : String → String

/-- The command-line flags read by the batch loop. -/
structure Config where
  outputDir : String
  watermarkPath : String
  watermarkWidth : Int
  watermarkHeight : Int
  watermarkX : String
  watermarkY : String
  maxConcurrency : Int
  crfThreshold : Int

/-- The part of `os.FileInfo` the program reads. -/
structure FileInfo where
  Name : String
  Size : Int
  deriving DecidableEq, Repr

/-- Outcomes of the operating-system calls a step may make. -/
structure Env where
  statResult : Option FileInfo
  mkdirOk : Bool
  openOk : Bool
  createOk : Bool
  copyOk : Bool
  ffmpegOk : Bool

/-- Source function `copyFile` (lines 125-143): `true` when it returns `nil`.
It returns the first error among `os.Open`, `os.Create` and `io.Copy`. -/
def copyFile (env : Env) : Bool :=
  if !env.openOk then false
  else if !env.createOk then false
  else if !env.copyOk then false
  else true

/-- An observable operation of the batch loop. -/
inductive Op where
  | stat (res : Option FileInfo)
  | mainFail
  | mkdirAll (dir : String) (ok : Bool)
  | copyFile (src dst : String) (ok : Bool)
  | exec (cmd : Cmd) (ok : Bool)
  | unitFail
  | unitSuccess
  deriving DecidableEq, Repr

/-- An operation together with the index in `matches` of the file it is made for. -/
structure Event where
  file : Nat
  op : Op
  deriving DecidableEq, Repr

/-- Control points of a goroutine started at line 85. -/
inductive UPc where
  | acquire
  | mkdirAll
  | copyFile
  | processVideo
  | failLoad
  | failStore (v : Nat)
  | successLoad
  | successStore (v : Nat)
  | wgDone
  | release
  | done
  deriving DecidableEq, Repr

/-- A goroutine: the arguments of `go func(inputPath, outputPath string, fileSize int64)`
and its control point. -/
structure WorkUnit where
  inputPath : String
  outputPath : String
  fileSize : Int
  pc : UPc
  deriving DecidableEq, Repr

/-- Control points of `main`. -/
inductive MPc where
  | makeChan
  | loop
  | stat
  | failLoad
  | failStore (v : Nat)
  | wait
  | exited
  | panicked
  deriving DecidableEq, Repr

/-- The state of the program: the control point of `main`, the index of the
`range matches` loop, `len(semaphore)`, the `WaitGroup` counter, the three
counters, the goroutine of each matched file (`none` before it is started)
and the operations made so far. -/
structure State where
  pc : MPc
  idx : Nat
  semaphore : Nat
  wg : Nat
  totalNum : Nat
  failNum : Nat
  successNum : Nat
  units : List (Option WorkUnit)
  trace : List Event
  deriving DecidableEq, Repr

/-- A thread of the program. -/
inductive Thread where
  | main
  | unit (i : Nat)
  deriving DecidableEq, Repr

/-- One scheduling decision: the thread that moves and what the system answers. -/
structure Action where
  thread : Thread
  env : Env

/-- Lines 71-72: `filepath.Join(*outputDir, strings.TrimSuffix(info.Name(), filepath.Ext(info.Name())) + ".mp4")`. -/
def outputPathOf (P : Platform) (cfg : Config) (info : FileInfo) : String :=
  let outputFileName := TrimSuffix info.Name (Ext P.goos info.Name) ++ ".mp4"
  P.Join cfg.outputDir outputFileName

/-- Line 94: `filepath.Join(*outputDir, "backup")`. -/
def backupDir (P : Platform) (cfg : Config) : String :=
  P.Join cfg.outputDir "backup"

/-- Line 101: `filepath.Join(backupDir, filepath.Base(inputPath))`. -/
def backupPath (P : Platform) (cfg : Config) (inputPath : String) : String :=
  P.Join (backupDir P cfg) (P.Base inputPath)

/-- Line 109: the command `processVideo` builds for a goroutine. -/
def unitCmd (cfg : Config) (u : WorkUnit) : Cmd :=
  processVideo u.inputPath u.outputPath cfg.watermarkPath cfg.watermarkWidth
    cfg.watermarkHeight cfg.watermarkX cfg.watermarkY u.fileSize cfg.crfThreshold

/-- The state at line 44; `matched` is the slice `matches`. -/
def init (matched : List String) : State :=
  { pc := MPc.makeChan, idx := 0, semaphore := 0, wg := 0, totalNum := 0, failNum := 0,
    successNum := 0, units := List.replicate matched.length none, trace := [] }

/-- One step of `main` (lines 45-82 and 120-121). -/
def mainStep (P : Platform) (cfg : Config) (matched : List String) (s : State) (env : Env) :
    Option State :=
  match s.pc with
  | MPc.makeChan =>
    if cfg.maxConcurrency < 0 then some { s with pc := MPc.panicked }
    else some { s with pc := MPc.loop }
  | MPc.loop =>
    match matched[s.idx]? with
    | none => some { s with pc := MPc.wait }
    | some inputPath =>
      if !isVideoFile P.goos P.caseTable inputPath then some { s with idx := s.idx + 1 }
      else some { s with totalNum := s.totalNum + 1, pc := MPc.stat }
  | MPc.stat =>
    match matched[s.idx]? with
    | none => none
    | some inputPath =>
      match env.statResult with
      | none =>
        some { s with pc := MPc.failLoad, trace := s.trace ++ [⟨s.idx, Op.stat none⟩] }
      | some info =>
        let outputPath := outputPathOf P cfg info
        if outputPath == inputPath then
          some { s with pc := MPc.failLoad, trace := s.trace ++ [⟨s.idx, Op.stat (some info)⟩] }
        else
          some { s with
            pc := MPc.loop, idx := s.idx + 1, wg := s.wg + 1,
            units := s.units.set s.idx
              (some { inputPath := inputPath, outputPath := outputPath,
                      fileSize := info.Size, pc := UPc.acquire }),
            trace := s.trace ++ [⟨s.idx, Op.stat (some info)⟩] }
  | MPc.failLoad => some { s with pc := MPc.failStore s.failNum }
  | MPc.failStore v =>
    some { s with failNum := v + 1, pc := MPc.loop, idx := s.idx + 1,
                  trace := s.trace ++ [⟨s.idx, Op.mainFail⟩] }
  | MPc.wait => if s.wg == 0 then some { s with pc := MPc.exited } else none
  | MPc.exited => none
  | MPc.panicked => none

/-- One step of the goroutine of file `i` (lines 85-116), `u` its current state. -/
def unitStep (P : Platform) (cfg : Config) (s : State) (i : Nat) (u : WorkUnit) (env : Env) :
    Option State :=
  match u.pc with
  | UPc.acquire =>
    if (s.semaphore : Int) < cfg.maxConcurrency then
      some { s with semaphore := s.semaphore + 1,
                    units := s.units.set i (some { u with pc := UPc.mkdirAll }) }
    else none
  | UPc.mkdirAll =>
    some { s with
      units := s.units.set i
        (some { u with pc := if env.mkdirOk then UPc.copyFile else UPc.failLoad }),
      trace := s.trace ++ [⟨i, Op.mkdirAll (backupDir P cfg) env.mkdirOk⟩] }
  | UPc.copyFile =>
    some { s with
      units := s.units.set i
        (some { u with pc := if copyFile env then UPc.processVideo else UPc.failLoad }),
      trace := s.trace ++
        [⟨i, Op.copyFile u.inputPath (backupPath P cfg u.inputPath) (copyFile env)⟩] }
  | UPc.processVideo =>
    some { s with
      units := s.units.set i
        (some { u with pc := if env.ffmpegOk then UPc.successLoad else UPc.failLoad }),
      trace := s.trace ++ [⟨i, Op.exec (unitCmd cfg u) env.ffmpegOk⟩] }
  | UPc.failLoad =>
    some { s with units := s.units.set i (some { u with pc := UPc.failStore s.failNum }) }
  | UPc.failStore v =>
    some { s with failNum := v + 1,
                  units := s.units.set i (some { u with pc := UPc.wgDone }),
                  trace := s.trace ++ [⟨i, Op.unitFail⟩] }
  | UPc.successLoad =>
    some { s with units := s.units.set i (some { u with pc := UPc.successStore s.successNum }) }
  | UPc.successStore v =>
    some { s with successNum := v + 1,
                  units := s.units.set i (some { u with pc := UPc.wgDone }),
                  trace := s.trace ++ [⟨i, Op.unitSuccess⟩] }
  | UPc.wgDone =>
    some { s with wg := s.wg - 1, units := s.units.set i (some { u with pc := UPc.release }) }
  | UPc.release =>
    if 0 < s.semaphore then
      some { s with semaphore := s.semaphore - 1,
                    units := s.units.set i (some { u with pc := UPc.done }) }
    else none
  | UPc.done => none

/-- One step of the program; `none` when the chosen thread cannot move. -/
def step (P : Platform) (cfg : Config) (matched : List String) (s : State) (a : Action) :
    Option State :=
  match a.thread with
  | Thread.main => mainStep P cfg matched s a.env
  | Thread.unit i =>
    match s.units[i]? with
    | some (some u) => unitStep P cfg s i u a.env
    | _ => none

/-- The state after a list of steps; `none` when one of them cannot be taken. -/
def run (P : Platform) (cfg : Config) (matched : List String) : State → List Action → Option State
  | s, [] => some s
  | s, a :: rest =>
    match step P cfg matched s a with
    | none => none
    | some s' => run P cfg matched s' rest

/-- Scanning the reversed prefix `rp` of a path whose remaining suffix is `suf`:
the loop of `filepath.Ext` on lists. -/
def extScan (goos : GOOS) : List Char → List Char → List Char
  | [], _ => []
  | c :: rp, suf =>
    if IsPathSeparator goos c then []
    else if c == '.' then c :: suf
    else extScan goos rp (c :: suf)

/-- The goroutine holds a semaphore slot: it is between `semaphore <- struct{}{}`
and the deferred `<-semaphore`. -/
def UPc.holds : UPc → Bool
  | UPc.acquire => false
  | UPc.done => false
  | _ => true

/-- The goroutine has not yet called `wg.Done()`. -/
def UPc.pending : UPc → Bool
  | UPc.release => false
  | UPc.done => false
  | _ => true

/-- An upper bound on the number of steps the goroutine still has to make. -/
def UPc.rank : UPc → Nat
  | UPc.acquire => 8
  | UPc.mkdirAll => 7
  | UPc.copyFile => 6
  | UPc.processVideo => 5
  | UPc.failLoad => 4
  | UPc.successLoad => 4
  | UPc.failStore _ => 3
  | UPc.successStore _ => 3
  | UPc.wgDone => 2
  | UPc.release => 1
  | UPc.done => 0

/-- The goroutine in a slot of `units` holds a semaphore slot. -/
def slotHolds : Option WorkUnit → Bool
  | some u => u.pc.holds
  | none => false

/-- The goroutine in a slot of `units` has not yet called `wg.Done()`. -/
def slotPending : Option WorkUnit → Bool
  | some u => u.pc.pending
  | none => false

/-- The number of goroutines that hold a semaphore slot. -/
def holding (units : List (Option WorkUnit)) : Nat := units.countP slotHolds

/-- The number of goroutines that have not yet called `wg.Done()`. -/
def pending (units : List (Option WorkUnit)) : Nat := units.countP slotPending

/-- The operation is made by a goroutine (not by `main`). -/
def Op.isUnit : Op → Bool
  | Op.stat _ => false
  | Op.mainFail => false
  | _ => true

/-- The operations the goroutine of file `i` has made, in order. -/
def unitOps (i : Nat) (trace : List Event) : List Op :=
  (trace.filter (fun e => e.file == i && e.op.isUnit)).map Event.op

/-- The four complete runs of a goroutine's body. -/
def completeRuns (P : Platform) (cfg : Config) (u : WorkUnit) : List (List Op) :=
  [ [Op.mkdirAll (backupDir P cfg) false, Op.unitFail],
    [Op.mkdirAll (backupDir P cfg) true,
     Op.copyFile u.inputPath (backupPath P cfg u.inputPath) false, Op.unitFail],
    [Op.mkdirAll (backupDir P cfg) true,
     Op.copyFile u.inputPath (backupPath P cfg u.inputPath) true,
     Op.exec (unitCmd cfg u) false, Op.unitFail],
    [Op.mkdirAll (backupDir P cfg) true,
     Op.copyFile u.inputPath (backupPath P cfg u.inputPath) true,
     Op.exec (unitCmd cfg u) true, Op.unitSuccess] ]

/-- The operations a goroutine can have made when it is at a control point. -/
def expectedOps (P : Platform) (cfg : Config) (u : WorkUnit) : UPc → List (List Op)
  | UPc.acquire => [[]]
  | UPc.mkdirAll => [[]]
  | UPc.copyFile => [[Op.mkdirAll (backupDir P cfg) true]]
  | UPc.processVideo =>
    [[Op.mkdirAll (backupDir P cfg) true,
      Op.copyFile u.inputPath (backupPath P cfg u.inputPath) true]]
  | UPc.failLoad =>
    (completeRuns P cfg u).map List.dropLast |>.take 3
  | UPc.failStore _ =>
    (completeRuns P cfg u).map List.dropLast |>.take 3
  | UPc.successLoad =>
    (completeRuns P cfg u).map List.dropLast |>.drop 3
  | UPc.successStore _ =>
    (completeRuns P cfg u).map List.dropLast |>.drop 3
  | UPc.wgDone => completeRuns P cfg u
  | UPc.release => completeRuns P cfg u
  | UPc.done => completeRuns P cfg u

/-- `main` is inside the loop body for the file at index `idx`, after `totalNum++`. -/
def MPc.inBody : MPc → Bool
  | MPc.stat => true
  | MPc.failLoad => true
  | MPc.failStore _ => true
  | _ => false

/-- `main` is between the failed check of the file at index `idx` and `continue`. -/
def MPc.failing : MPc → Bool
  | MPc.failLoad => true
  | MPc.failStore _ => true
  | _ => false

/-! ## The steps as a relation, and the invariants of the batch loop -/

/-- The transitions of `main`, one constructor for each branch of `mainStep`. -/
inductive MainStep (P : Platform) (cfg : Config) (matched : List String) : State → State → Prop where
  | makeChanPanic (s : State) (hpc : s.pc = MPc.makeChan) (hneg : cfg.maxConcurrency < 0) :
      MainStep P cfg matched s { s with pc := MPc.panicked }
  | makeChanOk (s : State) (hpc : s.pc = MPc.makeChan) (hnn : ¬ cfg.maxConcurrency < 0) :
      MainStep P cfg matched s { s with pc := MPc.loop }
  | loopEnd (s : State) (hpc : s.pc = MPc.loop) (hget : matched[s.idx]? = none) :
      MainStep P cfg matched s { s with pc := MPc.wait }
  | loopSkip (s : State) (inputPath : String) (hpc : s.pc = MPc.loop)
      (hget : matched[s.idx]? = some inputPath)
      (hvid : isVideoFile P.goos P.caseTable inputPath = false) :
      MainStep P cfg matched s { s with idx := s.idx + 1 }
  | loopVideo (s : State) (inputPath : String) (hpc : s.pc = MPc.loop)
      (hget : matched[s.idx]? = some inputPath)
      (hvid : isVideoFile P.goos P.caseTable inputPath = true) :
      MainStep P cfg matched s { s with totalNum := s.totalNum + 1, pc := MPc.stat }
  | statErr (s : State) (inputPath : String) (hpc : s.pc = MPc.stat)
      (hget : matched[s.idx]? = some inputPath) :
      MainStep P cfg matched s
        { s with pc := MPc.failLoad, trace := s.trace ++ [⟨s.idx, Op.stat none⟩] }
  | statCollision (s : State) (inputPath : String) (info : FileInfo) (hpc : s.pc = MPc.stat)
      (hget : matched[s.idx]? = some inputPath)
      (hcol : outputPathOf P cfg info = inputPath) :
      MainStep P cfg matched s
        { s with pc := MPc.failLoad, trace := s.trace ++ [⟨s.idx, Op.stat (some info)⟩] }
  | statSpawn (s : State) (inputPath : String) (info : FileInfo) (hpc : s.pc = MPc.stat)
      (hget : matched[s.idx]? = some inputPath)
      (hcol : outputPathOf P cfg info ≠ inputPath) :
      MainStep P cfg matched s
        { s with
          pc := MPc.loop, idx := s.idx + 1, wg := s.wg + 1,
          units := s.units.set s.idx
            (some { inputPath := inputPath, outputPath := outputPathOf P cfg info,
                    fileSize := info.Size, pc := UPc.acquire }),
          trace := s.trace ++ [⟨s.idx, Op.stat (some info)⟩] }
  | mainFailLoad (s : State) (hpc : s.pc = MPc.failLoad) :
      MainStep P cfg matched s { s with pc := MPc.failStore s.failNum }
  | mainFailStore (s : State) (v : Nat) (hpc : s.pc = MPc.failStore v) :
      MainStep P cfg matched s
        { s with failNum := v + 1, pc := MPc.loop, idx := s.idx + 1,
                 trace := s.trace ++ [⟨s.idx, Op.mainFail⟩] }
  | waitDone (s : State) (hpc : s.pc = MPc.wait) (hwg : s.wg = 0) :
      MainStep P cfg matched s { s with pc := MPc.exited }

/-- The transitions of the goroutines, one constructor for each branch of `unitStep`. -/
inductive UnitStep (P : Platform) (cfg : Config) : State → State → Prop where
  | acquire (s : State) (i : Nat) (u : WorkUnit) (hu : s.units[i]? = some (some u))
      (hpc : u.pc = UPc.acquire) (hfree : (s.semaphore : Int) < cfg.maxConcurrency) :
      UnitStep P cfg s
        { s with semaphore := s.semaphore + 1,
                 units := s.units.set i (some { u with pc := UPc.mkdirAll }) }
  | mkdirAll (s : State) (i : Nat) (u : WorkUnit) (ok : Bool)
      (hu : s.units[i]? = some (some u)) (hpc : u.pc = UPc.mkdirAll) :
      UnitStep P cfg s
        { s with
          units := s.units.set i (some { u with pc := if ok then UPc.copyFile else UPc.failLoad }),
          trace := s.trace ++ [⟨i, Op.mkdirAll (backupDir P cfg) ok⟩] }
  | copyFile (s : State) (i : Nat) (u : WorkUnit) (ok : Bool)
      (hu : s.units[i]? = some (some u)) (hpc : u.pc = UPc.copyFile) :
      UnitStep P cfg s
        { s with
          units := s.units.set i
            (some { u with pc := if ok then UPc.processVideo else UPc.failLoad }),
          trace := s.trace ++ [⟨i, Op.copyFile u.inputPath (backupPath P cfg u.inputPath) ok⟩] }
  | processVideo (s : State) (i : Nat) (u : WorkUnit) (ok : Bool)
      (hu : s.units[i]? = some (some u)) (hpc : u.pc = UPc.processVideo) :
      UnitStep P cfg s
        { s with
          units := s.units.set i
            (some { u with pc := if ok then UPc.successLoad else UPc.failLoad }),
          trace := s.trace ++ [⟨i, Op.exec (unitCmd cfg u) ok⟩] }
  | failLoad (s : State) (i : Nat) (u : WorkUnit) (hu : s.units[i]? = some (some u))
      (hpc : u.pc = UPc.failLoad) :
      UnitStep P cfg s
        { s with units := s.units.set i (some { u with pc := UPc.failStore s.failNum }) }
  | failStore (s : State) (i : Nat) (u : WorkUnit) (v : Nat)
      (hu : s.units[i]? = some (some u)) (hpc : u.pc = UPc.failStore v) :
      UnitStep P cfg s
        { s with failNum := v + 1,
                 units := s.units.set i (some { u with pc := UPc.wgDone }),
                 trace := s.trace ++ [⟨i, Op.unitFail⟩] }
  | successLoad (s : State) (i : Nat) (u : WorkUnit) (hu : s.units[i]? = some (some u))
      (hpc : u.pc = UPc.successLoad) :
      UnitStep P cfg s
        { s with units := s.units.set i (some { u with pc := UPc.successStore s.successNum }) }
  | successStore (s : State) (i : Nat) (u : WorkUnit) (v : Nat)
      (hu : s.units[i]? = some (some u)) (hpc : u.pc = UPc.successStore v) :
      UnitStep P cfg s
        { s with successNum := v + 1,
                 units := s.units.set i (some { u with pc := UPc.wgDone }),
                 trace := s.trace ++ [⟨i, Op.unitSuccess⟩] }
  | wgDone (s : State) (i : Nat) (u : WorkUnit) (hu : s.units[i]? = some (some u))
      (hpc : u.pc = UPc.wgDone) :
      UnitStep P cfg s
        { s with wg := s.wg - 1, units := s.units.set i (some { u with pc := UPc.release }) }
  | release (s : State) (i : Nat) (u : WorkUnit) (hu : s.units[i]? = some (some u))
      (hpc : u.pc = UPc.release) (hpos : 0 < s.semaphore) :
      UnitStep P cfg s
        { s with semaphore := s.semaphore - 1,
                 units := s.units.set i (some { u with pc := UPc.done }) }

/-- The transitions of the program. -/
def Step (P : Platform) (cfg : Config) (matched : List String) (s s' : State) : Prop :=
  MainStep P cfg matched s s' ∨ UnitStep P cfg s s'

/-- What every step of a goroutine leaves unchanged: it moves the control point of
one started goroutine, appends operations of that goroutine to the trace, and
does not touch the variables of `main`. -/
def UnitFrame (s s' : State) : Prop :=
  ∃ (i : Nat) (u : WorkUnit) (pc' : UPc) (ops : List Op),
    s.units[i]? = some (some u) ∧
    s'.units = s.units.set i (some { u with pc := pc' }) ∧
    s'.pc = s.pc ∧ s'.idx = s.idx ∧ s'.totalNum = s.totalNum ∧
    s'.trace = s.trace ++ ops.map (Event.mk i) ∧
    ∀ o ∈ ops, o.isUnit = true

/-- The operations recorded for file `i` fit the state of its slot in `units`: none
before the goroutine is started, and afterwards one of the sequences `expectedOps`
allows at the goroutine's control point. -/
def OpsOK (P : Platform) (cfg : Config) (slot : Option (Option WorkUnit)) (ops : List Op) :
    Prop :=
  match slot with
  | some (some u) => ops ∈ expectedOps P cfg u u.pc
  | _ => ops = []

/-- The invariant of the batch loop. -/
structure Inv (P : Platform) (cfg : Config) (matched : List String) (s : State) : Prop where
  len : s.units.length = matched.length
  spawned : ∀ (i : Nat) (u : WorkUnit), s.units[i]? = some (some u) →
    i < s.idx ∧ matched[i]? = some u.inputPath ∧
    isVideoFile P.goos P.caseTable u.inputPath = true ∧ u.outputPath ≠ u.inputPath
  body : s.pc.inBody = true →
    ∃ p, matched[s.idx]? = some p ∧ isVideoFile P.goos P.caseTable p = true
  atEnd : s.pc = MPc.wait ∨ s.pc = MPc.exited → matched.length ≤ s.idx
  total : s.totalNum =
    (matched.take s.idx).countP (isVideoFile P.goos P.caseTable) +
      (if s.pc.inBody = true then 1 else 0)
  events : ∀ e ∈ s.trace, e.file < s.idx ∨ (e.file = s.idx ∧ s.pc.failing = true)
  video : ∀ e ∈ s.trace,
    ∃ p, matched[e.file]? = some p ∧ isVideoFile P.goos P.caseTable p = true
  collision : ∀ i info, (⟨i, Op.stat (some info)⟩ : Event) ∈ s.trace →
    matched[i]? = some (outputPathOf P cfg info) → s.units[i]? = some none
  rejected : ∀ i, i < s.idx → s.units[i]? = some none →
    (∃ r, (⟨i, Op.stat r⟩ : Event) ∈ s.trace) → (⟨i, Op.mainFail⟩ : Event) ∈ s.trace
  ops : ∀ i, OpsOK P cfg s.units[i]? (unitOps i s.trace)
  sem : holding s.units = s.semaphore
  semLe : s.semaphore = 0 ∨ (s.semaphore : Int) ≤ cfg.maxConcurrency
  wgEq : s.wg = pending s.units
  cap0 : cfg.maxConcurrency ≤ 0 → ∀ (i : Nat) (u : WorkUnit), s.units[i]? = some (some u) → u.pc = UPc.acquire
  neg : cfg.maxConcurrency < 0 → (s.pc = MPc.makeChan ∨ s.pc = MPc.panicked) ∧ s.idx = 0
  exitWg : s.pc = MPc.exited → s.wg = 0

/-! ## Concrete instances used to evaluate the model -/

/-- An instance of `filepath.Join` for two clean relative elements. -/
def joinSlash (a b : String) : String := a ++ "/" ++ b

/-- An instance of `filepath.Base` for clean paths: the final element. -/
def baseName (path : String) : String := ⟨finalElement GOOS.unix path.data⟩

/-- A Unix platform whose paths are ASCII. -/
def unixPlatform : Platform :=
  { goos := GOOS.unix, caseTable := id, Join := joinSlash, Base := baseName }

/-- The default values of the flags (lines 17-25), for a given output directory and
concurrency. -/
def defaultConfig (outputDir : String) (maxConcurrency : Int) : Config :=
  { outputDir := outputDir, watermarkPath := "", watermarkWidth := 100,
    watermarkHeight := -1, watermarkX := "W-w-10", watermarkY := "10",
    maxConcurrency := maxConcurrency, crfThreshold := 10 * 1024 * 1024 }

/-- A step of `main` in which `os.Stat` fails. -/
def mainAct : Action :=
  { thread := Thread.main,
    env := { statResult := none, mkdirOk := true, openOk := true, createOk := true,
             copyOk := true, ffmpegOk := true } }

/-- A step of `main` in which `os.Stat` returns a file of the given name and size. -/
def statAct (name : String) (size : Int) : Action :=
  { thread := Thread.main,
    env := { statResult := some { Name := name, Size := size }, mkdirOk := true,
             openOk := true, createOk := true, copyOk := true, ffmpegOk := true } }

/-- A step of the goroutine of file `i` in which every system call succeeds. -/
def unitAct (i : Nat) : Action :=
  { thread := Thread.unit i,
    env := { statResult := none, mkdirOk := true, openOk := true, createOk := true,
             copyOk := true, ffmpegOk := true } }

/-- The state a run from the initial state ends in (the initial state if a step of
the run cannot be taken). -/
def finalState (P : Platform) (cfg : Config) (matched : List String) (acts : List Action) :
    State :=
  (run P cfg matched (init matched) acts).getD (init matched)

/-- Two videos are converted successfully, and the two goroutines both load
`successNum` before either stores it. -/
def lostUpdateRun : List Action :=
  [mainAct, mainAct, statAct "a.avi" 1000, mainAct, statAct "b.mkv" 2000, mainAct,
   unitAct 0, unitAct 0, unitAct 0, unitAct 0,
   unitAct 1, unitAct 1, unitAct 1, unitAct 1,
   unitAct 0, unitAct 1, unitAct 0, unitAct 1,
   unitAct 0, unitAct 0, unitAct 1, unitAct 1, mainAct]

/-- The scenario of the specification: a text file, a 5 MB video and a 15 MB video,
converted one after the other. -/
def scenarioFiles : List String := ["notes.txt", "small.avi", "big.mkv"]

/-- A complete run of the scenario. -/
def scenarioRun : List Action :=
  [mainAct, mainAct, mainAct, statAct "small.avi" 5000000,
   unitAct 1, unitAct 1, unitAct 1, unitAct 1, unitAct 1, unitAct 1, unitAct 1, unitAct 1,
   mainAct, statAct "big.mkv" 15000000,
   unitAct 2, unitAct 2, unitAct 2, unitAct 2, unitAct 2, unitAct 2, unitAct 2, unitAct 2,
   mainAct, mainAct]

/-- The input file lies in the output directory and is already an MP4:
its output path is its input path. -/
def collisionRun : List Action :=
  [mainAct, mainAct, statAct "a.mp4" 1000, mainAct, mainAct, mainAct]

/-- With `-concurrency 0`, `main` walks the whole list and starts a goroutine. -/
def zeroConcurrencyRun : List Action :=
  [mainAct, mainAct, statAct "a.avi" 1000, mainAct]

/-- With `-concurrency 1` and two videos: both goroutines are started, the second one
takes the slot and creates the backup directory. -/
def saturatedRun : List Action :=
  [mainAct, mainAct, statAct "a.avi" 1000, mainAct, statAct "b.mkv" 2000,
   unitAct 1, unitAct 1]

/-- The steps of `main` over the files `files` when every `os.Stat` fails, followed by
the end of the loop and `wg.Wait()`. -/
def statFailRun (P : Platform) : List String → List Action
  | [] => [mainAct, mainAct]
  | inputPath :: rest =>
    (if isVideoFile P.goos P.caseTable inputPath then [mainAct, mainAct, mainAct, mainAct]
     else [mainAct]) ++ statFailRun P rest

/-! ## The extension and `isVideoFile` -/

theorem extLoop_eq_extScan (goos : GOOS) (rp : List Char) :
    ∀ suf : List Char, extLoop goos (rp.reverse ++ suf) rp.length = extScan goos rp suf := by
  induction rp with
  | nil => intro suf; rfl
  | cons c rp ih =>
    intro suf
    have hget : (rp.reverse ++ c :: suf)[rp.length]? = some c := by
      rw [List.getElem?_append_right (by simp)]
      simp
    have hdrop : (rp.reverse ++ c :: suf).drop rp.length = c :: suf := by
      have h := List.drop_left rp.reverse (c :: suf)
      rw [List.length_reverse] at h
      exact h
    have ih' := ih (c :: suf)
    simp only [List.reverse_cons, List.append_assoc, List.singleton_append, List.length_cons,
      extLoop, extScan, hget, hdrop, ih']

theorem extScan_eq (goos : GOOS) (rp : List Char) :
    ∀ suf : List Char, extScan goos rp suf =
      if '.' ∈ rp.takeWhile (fun c => !IsPathSeparator goos c) then
        '.' :: (((rp.takeWhile (fun c => !IsPathSeparator goos c)).takeWhile
          (fun c => c != '.')).reverse ++ suf)
      else [] := by
  induction rp with
  | nil => intro suf; simp [extScan]
  | cons c rp ih =>
    intro suf
    by_cases hsep : IsPathSeparator goos c = true
    · simp [extScan, hsep, List.takeWhile_cons]
    · by_cases hdot : c = '.'
      · subst hdot
        simp [extScan, hsep, List.takeWhile_cons]
      · have hne : ¬ '.' = c := fun h => hdot h.symm
        simp [extScan, hsep, hdot, hne, List.takeWhile_cons, ih (c :: suf)]

theorem Ext_eq_extSpec (goos : GOOS) (path : String) : Ext goos path = extSpec goos path := by
  have h1 := extLoop_eq_extScan goos path.data.reverse []
  simp only [List.reverse_reverse, List.append_nil, List.length_reverse] at h1
  have h2 := extScan_eq goos path.data.reverse []
  apply String.ext
  simp only [Ext, extSpec, lastDotSuffix, finalElement, h1, h2, List.reverse_reverse,
    List.mem_reverse, List.append_nil]


theorem isVideoLoop_iff (ext : String) (l : List String) : isVideoLoop ext l = true ↔ ext ∈ l := by
  induction l with
  | nil => simp [isVideoLoop]
  | cons v l ih =>
    by_cases h : ext = v
    · simp [isVideoLoop, h]
    · simp [isVideoLoop, h, ih]

theorem ToLower_eq_map (tbl : Char → Char) (s : String) :
    ToLower tbl s = ⟨s.data.map (unicodeToLower tbl)⟩ := by
  unfold ToLower
  simp only
  split
  · rename_i hascii
    have hmap : s.data.map (unicodeToLower tbl) = s.data.map asciiToLower := by
      apply List.map_congr_left
      intro c hc
      have := (List.all_eq_true.mp hascii) c hc
      simp at this
      simp [unicodeToLower, Nat.lt_succ_iff.mp this]
    split
    · rename_i hup
      apply String.ext
      rw [hmap]
      have hid : s.data.map asciiToLower = s.data.map id := by
        apply List.map_congr_left
        intro c hc
        have hnone : ¬ (65 ≤ c.toNat ∧ c.toNat ≤ 90) := by
          intro hcon
          simp at hup
          have := hup c hc hcon.1
          omega
        simp [asciiToLower, hnone]
      simp [hid]
    · rw [hmap]
  · rfl

theorem ascii_case_facts : ∀ n : Nat, n < 128 →
    asciiToLower (asciiToUpper (Char.ofNat n)) = asciiToLower (Char.ofNat n) ∧
    asciiToLower (asciiToLower (Char.ofNat n)) = asciiToLower (Char.ofNat n) ∧
    (asciiToUpper (Char.ofNat n)).toNat ≤ 127 ∧ (asciiToLower (Char.ofNat n)).toNat ≤ 127 := by
  decide


theorem caseChange_toLower (tbl : Char → Char) (a b : Char) (h : CaseChange a b) :
    unicodeToLower tbl b = unicodeToLower tbl a := by
  by_cases ha : a.toNat ≤ 127
  · have hofnat : Char.ofNat a.toNat = a := Char.ofNat_toNat a
    have hf := ascii_case_facts a.toNat (by omega)
    rw [hofnat] at hf
    rcases h with h | h | h
    · rw [h]
    · subst h
      simp [unicodeToLower, ha, hf.2.2.1, hf.1]
    · subst h
      simp [unicodeToLower, ha, hf.2.2.2, hf.2.1]
  · have hup : asciiToUpper a = a := by
      unfold asciiToUpper
      rw [if_neg (by omega)]
    have hlo : asciiToLower a = a := by
      unfold asciiToLower
      rw [if_neg (by omega)]
    rcases h with h | h | h
    · rw [h]
    · rw [h, hup]
    · rw [h, hlo]

theorem sameLower_map (tbl : Char → Char) (e e' : List Char)
    (h : List.Forall₂ (SameLower tbl) e e') :
    e'.map (unicodeToLower tbl) = e.map (unicodeToLower tbl) := by
  induction h with
  | nil => rfl
  | cons hab _ ih =>
    simp only [List.map_cons, ih]
    rw [show unicodeToLower tbl _ = unicodeToLower tbl _ from hab]

theorem caseChange_map (tbl : Char → Char) (e e' : List Char)
    (h : List.Forall₂ CaseChange e e') :
    e'.map (unicodeToLower tbl) = e.map (unicodeToLower tbl) := by
  induction h with
  | nil => rfl
  | cons hab _ ih => simp [caseChange_toLower tbl _ _ hab, ih]

/-- Claim C1, as stated, fails in its last clause: upper-casing the letters of the
extension of `x.avı` (U+0131, lower case, upper case `'I'` in Go's tables) gives `x.AVI`,
and `isVideoFile` is `false` on the first path and `true` on the second. -/
theorem dotless_i_case_change_changes_result :
    unicodeToLower goLowerEntries (Char.ofNat 0x131) = Char.ofNat 0x131 ∧
    (extSpec GOOS.unix "x.AVI").data = (extSpec GOOS.unix "x.avı").data.map goUpperEntries ∧
    isVideoFile GOOS.unix goLowerEntries "x.avı" = false ∧
    isVideoFile GOOS.unix goLowerEntries "x.AVI" = true := by
  decide

/-- Claim C1, amended: `isVideoFile p` is true exactly when the extension of `p` (the
suffix from the last `'.'` of the final path element, empty if there is none),
lower-cased, is one of `.mp4 .mov .avi .mkv .flv .wmv`; a path with no extension or with
an extension outside the list gives `false`; and the result is the same for a path whose
extension differs only in the case of its ASCII letters, and more generally only in
runes that `unicode.ToLower` maps to the same rune. -/
theorem isVideoFile_iff_extension (goos : GOOS) (caseTable : Char → Char) (p : String) :
    (isVideoFile goos caseTable p = true ↔
      ToLower caseTable (extSpec goos p) ∈ [".mp4", ".mov", ".avi", ".mkv", ".flv", ".wmv"]) ∧
    (extSpec goos p = "" → isVideoFile goos caseTable p = false) ∧
    (ToLower caseTable (extSpec goos p) ∉ [".mp4", ".mov", ".avi", ".mkv", ".flv", ".wmv"] →
      isVideoFile goos caseTable p = false) ∧
    (∀ q : String, List.Forall₂ CaseChange (extSpec goos p).data (extSpec goos q).data →
      isVideoFile goos caseTable q = isVideoFile goos caseTable p) ∧
    (∀ q : String,
      List.Forall₂ (SameLower caseTable) (extSpec goos p).data (extSpec goos q).data →
      isVideoFile goos caseTable q = isVideoFile goos caseTable p) := by
  have hiff : ∀ r : String, isVideoFile goos caseTable r = true ↔
      ToLower caseTable (extSpec goos r) ∈ [".mp4", ".mov", ".avi", ".mkv", ".flv", ".wmv"] := by
    intro r
    unfold isVideoFile
    simp only
    rw [isVideoLoop_iff, Ext_eq_extSpec]
    rfl
  have hsame : ∀ q : String,
      ToLower caseTable (extSpec goos q) = ToLower caseTable (extSpec goos p) →
      isVideoFile goos caseTable q = isVideoFile goos caseTable p := by
    intro q hlow
    have h1 := hiff p
    have h2 := hiff q
    rw [hlow] at h2
    cases hp : isVideoFile goos caseTable p <;> cases hq' : isVideoFile goos caseTable q <;>
      simp_all
  refine ⟨hiff p, ?_, ?_, ?_, ?_⟩
  · intro hempty
    have hno : ¬ isVideoFile goos caseTable p = true := by
      have hlow : ToLower caseTable "" = "" := rfl
      rw [hiff p, hempty, hlow]
      decide
    simpa using hno
  · intro hnot
    have hno : ¬ isVideoFile goos caseTable p = true := fun h => hnot ((hiff p).mp h)
    simpa using hno
  · intro q hq
    apply hsame q
    rw [ToLower_eq_map, ToLower_eq_map, caseChange_map caseTable _ _ hq]
  · intro q hq
    apply hsame q
    rw [ToLower_eq_map, ToLower_eq_map, sameLower_map caseTable _ _ hq]

theorem isVideoFile_iff_extension_witness :
    isVideoFile GOOS.unix id "dir.d/Clip.MoV" = true ∧
    isVideoFile GOOS.windows id "C:\\video.mp4\\readme" = false ∧
    isVideoFile GOOS.unix id "notes.txt" = false ∧
    isVideoFile GOOS.unix id "dir.d/Clip.mov" = isVideoFile GOOS.unix id "dir.d/Clip.MoV" ∧
    isVideoFile GOOS.unix goLowerEntries "x.mKv" =
      isVideoFile GOOS.unix goLowerEntries "x.mkv" :=
  ⟨(isVideoFile_iff_extension GOOS.unix id "dir.d/Clip.MoV").1.mpr (by decide),
   (isVideoFile_iff_extension GOOS.windows id "C:\\video.mp4\\readme").2.1 (by decide),
   (isVideoFile_iff_extension GOOS.unix id "notes.txt").2.2.1 (by decide),
   (isVideoFile_iff_extension GOOS.unix id "dir.d/Clip.MoV").2.2.2.1 "dir.d/Clip.mov"
     (List.Forall₂.cons (Or.inl rfl)
       (List.Forall₂.cons (Or.inr (Or.inr (by decide)))
         (List.Forall₂.cons (Or.inl rfl)
           (List.Forall₂.cons (Or.inr (Or.inr (by decide))) List.Forall₂.nil)))),
   (isVideoFile_iff_extension GOOS.unix goLowerEntries "x.mkv").2.2.2.2 "x.mKv"
     (List.Forall₂.cons (by unfold SameLower; decide)
       (List.Forall₂.cons (by unfold SameLower; decide)
         (List.Forall₂.cons (by unfold SameLower; decide)
           (List.Forall₂.cons (by unfold SameLower; decide) List.Forall₂.nil))))⟩

/-! ## The command lines -/

theorem watermarkFilter_eq (width height : Int) (x y : String) :
    watermarkFilter width height x y =
      "[1:v] scale=" ++ formatInt width ++ ":" ++ formatInt height ++
        " [wm]; [0:v][wm] overlay=" ++ x ++ ":" ++ y := by
  apply String.ext
  simp [watermarkFilter, Sprintf, sprintfLoop]

/-- Claim C2: for both command variants, a file size at or below the threshold gives the
fixed tokens followed by the output path, and a file size above the threshold gives that
same list with `-preset veryslow -crf 28` inserted just before the output path. -/
theorem crf_tokens_iff_above_threshold (inputPath outputPath watermarkPath : String)
    (width height : Int) (x y : String) (fileSize fileSize' crfThreshold : Int)
    (habove : fileSize > crfThreshold) (hbelow : fileSize' ≤ crfThreshold) :
    (convertToMP4 inputPath outputPath fileSize' crfThreshold).args =
        ["-i", inputPath, "-c:v", "libx264", "-c:a", "copy"] ++ [outputPath] ∧
    (convertToMP4 inputPath outputPath fileSize crfThreshold).args =
        (convertToMP4 inputPath outputPath fileSize' crfThreshold).args.dropLast ++
          ["-preset", "veryslow", "-crf", "28"] ++ [outputPath] ∧
    (addWatermarkAndConvertToMP4 inputPath outputPath watermarkPath width height x y
        fileSize' crfThreshold).args =
        ["-i", inputPath, "-i", watermarkPath, "-filter_complex",
          watermarkFilter width height x y, "-c:v", "libx264", "-c:a", "copy", "-shortest"] ++
          [outputPath] ∧
    (addWatermarkAndConvertToMP4 inputPath outputPath watermarkPath width height x y
        fileSize crfThreshold).args =
        (addWatermarkAndConvertToMP4 inputPath outputPath watermarkPath width height x y
          fileSize' crfThreshold).args.dropLast ++
          ["-preset", "veryslow", "-crf", "28"] ++ [outputPath] := by
  have h1 : ¬ fileSize' > crfThreshold := by omega
  simp [convertToMP4, addWatermarkAndConvertToMP4, habove, h1, List.dropLast]

theorem crf_tokens_iff_above_threshold_witness :
    (convertToMP4 "in.avi" "out/in.mp4" 10485760 10485760).args =
        ["-i", "in.avi", "-c:v", "libx264", "-c:a", "copy"] ++ ["out/in.mp4"] ∧
    (convertToMP4 "in.avi" "out/in.mp4" 10485761 10485760).args =
        (convertToMP4 "in.avi" "out/in.mp4" 10485760 10485760).args.dropLast ++
          ["-preset", "veryslow", "-crf", "28"] ++ ["out/in.mp4"] ∧
    (addWatermarkAndConvertToMP4 "in.avi" "out/in.mp4" "wm.png" 200 (-1) "W-w-10" "10"
        10485760 10485760).args =
        ["-i", "in.avi", "-i", "wm.png", "-filter_complex",
          watermarkFilter 200 (-1) "W-w-10" "10", "-c:v", "libx264", "-c:a", "copy",
          "-shortest"] ++ ["out/in.mp4"] ∧
    (addWatermarkAndConvertToMP4 "in.avi" "out/in.mp4" "wm.png" 200 (-1) "W-w-10" "10"
        10485761 10485760).args =
        (addWatermarkAndConvertToMP4 "in.avi" "out/in.mp4" "wm.png" 200 (-1) "W-w-10" "10"
          10485760 10485760).args.dropLast ++
          ["-preset", "veryslow", "-crf", "28"] ++ ["out/in.mp4"] :=
  crf_tokens_iff_above_threshold "in.avi" "out/in.mp4" "wm.png" 200 (-1) "W-w-10" "10"
    10485761 10485760 10485760 (by decide) (by decide)

theorem contains_of_eq (s sub pre post : String) (h : s = pre ++ sub ++ post) :
    Contains s sub := by
  refine ⟨pre.data, post.data, ?_⟩
  rw [h]
  simp

/-- Claim C3: with a non-empty watermark path `processVideo` builds the watermark command:
two inputs, the filter `[1:v] scale=<width>:<height> [wm]; [0:v][wm] overlay=<x>:<y>`
with the numbers in decimal and `x`, `y` copied, `-c:v libx264 -c:a copy -shortest`, the
optional preset tokens and the output path; for 200, -1, `W-w-10`, `10` the filter
contains `scale=200:-1` and `overlay=W-w-10:10`. -/
theorem processVideo_watermark_args (inputPath outputPath watermarkPath : String)
    (width height : Int) (x y : String) (fileSize crfThreshold : Int)
    (hwm : watermarkPath ≠ "") :
    processVideo inputPath outputPath watermarkPath width height x y fileSize crfThreshold =
      { name := "ffmpeg",
        args := ["-i", inputPath, "-i", watermarkPath, "-filter_complex",
            "[1:v] scale=" ++ formatInt width ++ ":" ++ formatInt height ++
              " [wm]; [0:v][wm] overlay=" ++ x ++ ":" ++ y,
            "-c:v", "libx264", "-c:a", "copy", "-shortest"] ++
          (if fileSize > crfThreshold then ["-preset", "veryslow", "-crf", "28"] else []) ++
          [outputPath] } ∧
    Contains (watermarkFilter width height x y)
      ("scale=" ++ formatInt width ++ ":" ++ formatInt height) ∧
    Contains (watermarkFilter width height x y) ("overlay=" ++ x ++ ":" ++ y) ∧
    formatInt 200 = "200" ∧ formatInt (-1) = "-1" ∧
    watermarkFilter 200 (-1) "W-w-10" "10" =
      "[1:v] scale=200:-1 [wm]; [0:v][wm] overlay=W-w-10:10" := by
  refine ⟨?_, ?_, ?_, by decide, by decide, by decide⟩
  · unfold processVideo
    rw [if_neg (by simpa using hwm)]
    rw [← watermarkFilter_eq]
    unfold addWatermarkAndConvertToMP4
    split <;> simp
  · apply contains_of_eq _ _ "[1:v] " (" [wm]; [0:v][wm] overlay=" ++ x ++ ":" ++ y)
    rw [watermarkFilter_eq]
    apply String.ext
    simp [String.append_assoc]
  · apply contains_of_eq _ _
      ("[1:v] scale=" ++ formatInt width ++ ":" ++ formatInt height ++ " [wm]; [0:v][wm] ") ""
    rw [watermarkFilter_eq]
    apply String.ext
    simp [String.append_assoc]

theorem processVideo_watermark_args_witness :
    Contains (watermarkFilter 200 (-1) "W-w-10" "10") "scale=200:-1" ∧
    Contains (watermarkFilter 200 (-1) "W-w-10" "10") "overlay=W-w-10:10" ∧
    (processVideo "in.avi" "out/in.mp4" "wm.png" 200 (-1) "W-w-10" "10" 5 10).args =
      ["-i", "in.avi", "-i", "wm.png", "-filter_complex",
        "[1:v] scale=200:-1 [wm]; [0:v][wm] overlay=W-w-10:10",
        "-c:v", "libx264", "-c:a", "copy", "-shortest", "out/in.mp4"] :=
  have h := processVideo_watermark_args "in.avi" "out/in.mp4" "wm.png" 200 (-1) "W-w-10" "10"
    5 10 (by decide)
  ⟨h.2.1, h.2.2.1, by rw [h.1]; decide⟩

/-- Claim C4: with an empty watermark path `processVideo` builds the plain command:
`-i inputPath -c:v libx264 -c:a copy`, the optional preset tokens, and the output path
as the last token; there is no second input, no filter and no `-shortest`. -/
theorem processVideo_plain_args (inputPath outputPath : String) (width height : Int)
    (x y : String) (fileSize crfThreshold : Int) :
    processVideo inputPath outputPath "" width height x y fileSize crfThreshold =
      { name := "ffmpeg",
        args := ["-i", inputPath, "-c:v", "libx264", "-c:a", "copy"] ++
          (if fileSize > crfThreshold then ["-preset", "veryslow", "-crf", "28"] else []) ++
          [outputPath] } ∧
    (processVideo inputPath outputPath "" width height x y fileSize crfThreshold).args.getLast?
      = some outputPath ∧
    ((processVideo inputPath outputPath "" width height x y fileSize crfThreshold).args.length = 7
      ∨ (processVideo inputPath outputPath "" width height x y fileSize crfThreshold).args.length
        = 11) := by
  unfold processVideo convertToMP4
  by_cases h : fileSize > crfThreshold <;> simp [h]

/-! ## Steps and runs -/

theorem mainStep_sound (P : Platform) (cfg : Config) (matched : List String) (s s' : State)
    (env : Env) (h : mainStep P cfg matched s env = some s') : MainStep P cfg matched s s' := by
  unfold mainStep at h
  split at h
  · split at h
    · cases h; exact MainStep.makeChanPanic s ‹_› ‹_›
    · cases h; exact MainStep.makeChanOk s ‹_› ‹_›
  · split at h
    · cases h; exact MainStep.loopEnd s ‹_› ‹_›
    · split at h
      · rename_i hv; cases h; exact MainStep.loopSkip s _ ‹_› ‹_› (by simpa using hv)
      · rename_i hv; cases h; exact MainStep.loopVideo s _ ‹_› ‹_› (by simpa using hv)
  · split at h
    · cases h
    · split at h
      · cases h; exact MainStep.statErr s _ ‹_› ‹_›
      · simp only at h
        split at h
        · rename_i hv; cases h; exact MainStep.statCollision s _ _ ‹_› ‹_› (by simpa using hv)
        · rename_i hv; cases h; exact MainStep.statSpawn s _ _ ‹_› ‹_› (by simpa using hv)
  · cases h; exact MainStep.mainFailLoad s ‹_›
  · cases h; exact MainStep.mainFailStore s _ ‹_›
  · split at h
    · rename_i hv; cases h; exact MainStep.waitDone s ‹_› (by simpa using hv)
    · cases h
  · cases h
  · cases h

theorem unitStep_sound (P : Platform) (cfg : Config) (s s' : State)
    (i : Nat) (u : WorkUnit) (env : Env) (hu : s.units[i]? = some (some u))
    (h : unitStep P cfg s i u env = some s') : UnitStep P cfg s s' := by
  unfold unitStep at h
  split at h
  · split at h
    · cases h; exact UnitStep.acquire s i u hu ‹_› ‹_›
    · cases h
  · cases h; exact UnitStep.mkdirAll s i u _ hu ‹_›
  · cases h; exact UnitStep.copyFile s i u _ hu ‹_›
  · cases h; exact UnitStep.processVideo s i u _ hu ‹_›
  · cases h; exact UnitStep.failLoad s i u hu ‹_›
  · cases h; exact UnitStep.failStore s i u _ hu ‹_›
  · cases h; exact UnitStep.successLoad s i u hu ‹_›
  · cases h; exact UnitStep.successStore s i u _ hu ‹_›
  · cases h; exact UnitStep.wgDone s i u hu ‹_›
  · split at h
    · cases h; exact UnitStep.release s i u hu ‹_› ‹_›
    · cases h
  · cases h

theorem step_sound (P : Platform) (cfg : Config) (matched : List String) (s s' : State)
    (a : Action) (h : step P cfg matched s a = some s') : Step P cfg matched s s' := by
  unfold step at h
  split at h
  · exact Or.inl (mainStep_sound P cfg matched s s' a.env h)
  · split at h
    · exact Or.inr (unitStep_sound P cfg s s' _ _ a.env ‹_› h)
    · cases h

theorem run_invariant (P : Platform) (cfg : Config) (matched : List String)
    (I : State → Prop) (hstep : ∀ s s', I s → Step P cfg matched s s' → I s') :
    ∀ (acts : List Action) (s s' : State), I s → run P cfg matched s acts = some s' → I s' := by
  intro acts
  induction acts with
  | nil => intro s s' hI h; simp [run] at h; exact h ▸ hI
  | cons a rest ih =>
    intro s s' hI h
    simp only [run] at h
    split at h
    · cases h
    · rename_i s1 hs1
      exact ih s1 s' (hstep s s1 hI (step_sound P cfg matched s s1 a hs1)) h

/-! ## Preservation of the invariant -/

theorem unitStep_frame {P : Platform} {cfg : Config} {s s' : State}
    (h : UnitStep P cfg s s') : UnitFrame s s' := by
  cases h
  case acquire i u hu hpc hfree => exact ⟨i, u, _, [], hu, rfl, rfl, rfl, rfl, by simp, by simp⟩
  case mkdirAll i u ok hu hpc =>
    exact ⟨i, u, _, [Op.mkdirAll (backupDir P cfg) ok], hu, rfl, rfl, rfl, rfl, by simp,
      by simp [Op.isUnit]⟩
  case copyFile i u ok hu hpc =>
    exact ⟨i, u, _, [Op.copyFile u.inputPath (backupPath P cfg u.inputPath) ok], hu, rfl, rfl,
      rfl, rfl, by simp, by simp [Op.isUnit]⟩
  case processVideo i u ok hu hpc =>
    exact ⟨i, u, _, [Op.exec (unitCmd cfg u) ok], hu, rfl, rfl, rfl, rfl, by simp,
      by simp [Op.isUnit]⟩
  case failLoad i u hu hpc => exact ⟨i, u, _, [], hu, rfl, rfl, rfl, rfl, by simp, by simp⟩
  case failStore i u v hu hpc =>
    exact ⟨i, u, _, [Op.unitFail], hu, rfl, rfl, rfl, rfl, by simp, by simp [Op.isUnit]⟩
  case successLoad i u hu hpc => exact ⟨i, u, _, [], hu, rfl, rfl, rfl, rfl, by simp, by simp⟩
  case successStore i u v hu hpc =>
    exact ⟨i, u, _, [Op.unitSuccess], hu, rfl, rfl, rfl, rfl, by simp, by simp [Op.isUnit]⟩
  case wgDone i u hu hpc => exact ⟨i, u, _, [], hu, rfl, rfl, rfl, rfl, by simp, by simp⟩
  case release i u hu hpc hpos => exact ⟨i, u, _, [], hu, rfl, rfl, rfl, rfl, by simp, by simp⟩

/-- Reading a slot after a goroutine moved. -/
theorem getElem?_set_unit {units : List (Option WorkUnit)} {i j : Nat} {u w : WorkUnit}
    {pc' : UPc} (hu : units[i]? = some (some u))
    (hw : (units.set i (some { u with pc := pc' }))[j]? = some (some w)) :
    ∃ w0 : WorkUnit, units[j]? = some (some w0) ∧ w.inputPath = w0.inputPath ∧
      w.outputPath = w0.outputPath ∧ w.fileSize = w0.fileSize ∧
      ((j = i ∧ w0 = u ∧ w.pc = pc') ∨ (j ≠ i ∧ w = w0)) := by
  rw [List.getElem?_set] at hw
  split at hw
  · rename_i hij
    subst hij
    split at hw
    · cases hw
      exact ⟨u, hu, rfl, rfl, rfl, Or.inl ⟨rfl, rfl, rfl⟩⟩
    · cases hw
  · rename_i hij
    exact ⟨w, hw, rfl, rfl, rfl, Or.inr ⟨fun h => hij h.symm, rfl⟩⟩

theorem getElem?_set_none {units : List (Option WorkUnit)} {i j : Nat} {w : WorkUnit}
    (hw : (units.set i (some w))[j]? = some none) : units[j]? = some none ∧ j ≠ i := by
  rw [List.getElem?_set] at hw
  split at hw
  · split at hw <;> cases hw
  · rename_i hij
    exact ⟨hw, fun h => hij h.symm⟩

theorem inv_len {P : Platform} {cfg : Config} {matched : List String} {s s' : State}
    (hI : Inv P cfg matched s) (h : Step P cfg matched s s') :
    s'.units.length = matched.length := by
  have := hI.len
  rcases h with h | h
  · cases h <;> simp_all
  · obtain ⟨i, u, pc', ops, hu, hunits, -⟩ := unitStep_frame h
    simp [hunits, this]

theorem inv_spawned {P : Platform} {cfg : Config} {matched : List String} {s s' : State}
    (hI : Inv P cfg matched s) (h : Step P cfg matched s s') :
    ∀ (i : Nat) (u : WorkUnit), s'.units[i]? = some (some u) →
      i < s'.idx ∧ matched[i]? = some u.inputPath ∧
      isVideoFile P.goos P.caseTable u.inputPath = true ∧ u.outputPath ≠ u.inputPath := by
  have hsp := hI.spawned
  have hbody := hI.body
  rcases h with h | h
  · cases h
    case statSpawn inputPath info hpc hget hcol =>
      intro i u hu
      simp only [List.getElem?_set] at hu
      split at hu
      · rename_i hi
        subst hi
        split at hu
        · cases hu
          exact ⟨by simp, hget, by
            obtain ⟨p, hp, hv⟩ := hbody (by simp [hpc, MPc.inBody])
            rw [hget] at hp
            cases hp
            exact hv, hcol⟩
        · cases hu
      · obtain ⟨h1, h2⟩ := hsp i u hu
        exact ⟨by simp; omega, h2⟩
    case loopSkip =>
      intro i u hu
      obtain ⟨h1, h2⟩ := hsp i u hu
      exact ⟨by simp; omega, h2⟩
    case mainFailStore =>
      intro i u hu
      obtain ⟨h1, h2⟩ := hsp i u hu
      exact ⟨by simp; omega, h2⟩
    all_goals exact hsp
  · obtain ⟨i, u, pc', ops, hu, hunits, -, hidx, -⟩ := unitStep_frame h
    intro j w hw
    rw [hunits] at hw
    obtain ⟨w0, hw0, h1, h2, -, -⟩ := getElem?_set_unit hu hw
    rw [hidx, h1, h2]
    exact hsp j w0 hw0

theorem inv_body {P : Platform} {cfg : Config} {matched : List String} {s s' : State}
    (hI : Inv P cfg matched s) (h : Step P cfg matched s s') :
    s'.pc.inBody = true →
      ∃ p, matched[s'.idx]? = some p ∧ isVideoFile P.goos P.caseTable p = true := by
  have hbody := hI.body
  rcases h with h | h
  · cases h <;> simp_all [MPc.inBody]
  · obtain ⟨i, u, pc', ops, hu, hunits, hpc, hidx, -⟩ := unitStep_frame h
    rw [hpc, hidx]
    exact hbody

theorem inv_atEnd {P : Platform} {cfg : Config} {matched : List String} {s s' : State}
    (hI : Inv P cfg matched s) (h : Step P cfg matched s s') :
    s'.pc = MPc.wait ∨ s'.pc = MPc.exited → matched.length ≤ s'.idx := by
  have hend := hI.atEnd
  rcases h with h | h
  · cases h <;> simp_all
  · obtain ⟨i, u, pc', ops, hu, hunits, hpc, hidx, -⟩ := unitStep_frame h
    rw [hpc, hidx]
    exact hend

theorem inv_total {P : Platform} {cfg : Config} {matched : List String} {s s' : State}
    (hI : Inv P cfg matched s) (h : Step P cfg matched s s') :
    s'.totalNum =
      (matched.take s'.idx).countP (isVideoFile P.goos P.caseTable) +
        (if s'.pc.inBody = true then 1 else 0) := by
  have htot := hI.total
  have hbody := hI.body
  rcases h with h | h
  · cases h
    case mainFailStore v hpc =>
      obtain ⟨p, hp, hv⟩ := hbody (by simp [hpc, MPc.inBody])
      simp_all [MPc.inBody, List.take_succ]
    all_goals simp_all [MPc.inBody, List.take_succ]
  · obtain ⟨i, u, pc', ops, hu, hunits, hpc, hidx, htn, -⟩ := unitStep_frame h
    rw [hpc, hidx, htn]
    exact htot


theorem not_spawned_at_idx {P : Platform} {cfg : Config} {matched : List String} {s : State}
    (hI : Inv P cfg matched s) (i : Nat) (hi : s.idx ≤ i) (hlt : i < matched.length) :
    s.units[i]? = some none := by
  have hlen := hI.len
  cases hslot : s.units[i]? with
  | none =>
    have := List.getElem?_eq_none_iff.mp hslot
    omega
  | some slot =>
    cases slot with
    | none => rfl
    | some u =>
      have := (hI.spawned i u hslot).1
      omega

theorem inv_events {P : Platform} {cfg : Config} {matched : List String} {s s' : State}
    (hI : Inv P cfg matched s) (h : Step P cfg matched s s') :
    ∀ e ∈ s'.trace, e.file < s'.idx ∨ (e.file = s'.idx ∧ s'.pc.failing = true) := by
  have hev := hI.events
  rcases h with h | h
  · cases h
    case makeChanPanic hpc hneg =>
      intro e he
      rcases hev e he with h1 | h1
      · exact Or.inl h1
      · simp [hpc, MPc.failing] at h1
    case makeChanOk hpc hneg =>
      intro e he
      rcases hev e he with h1 | h1
      · exact Or.inl h1
      · simp [hpc, MPc.failing] at h1
    case loopEnd hpc hget =>
      intro e he
      rcases hev e he with h1 | h1
      · exact Or.inl h1
      · simp [hpc, MPc.failing] at h1
    case loopSkip inputPath hpc hget hvid =>
      intro e he
      rcases hev e he with h1 | h1
      · exact Or.inl (by simp; omega)
      · simp [hpc, MPc.failing] at h1
    case loopVideo inputPath hpc hget hvid =>
      intro e he
      rcases hev e he with h1 | h1
      · exact Or.inl h1
      · simp [hpc, MPc.failing] at h1
    case statErr inputPath hpc hget =>
      intro e he
      simp only [List.mem_append, List.mem_singleton] at he
      rcases he with he | he
      · rcases hev e he with h1 | h1
        · exact Or.inl h1
        · simp [hpc, MPc.failing] at h1
      · subst he
        exact Or.inr ⟨rfl, rfl⟩
    case statCollision inputPath info hpc hget hcol =>
      intro e he
      simp only [List.mem_append, List.mem_singleton] at he
      rcases he with he | he
      · rcases hev e he with h1 | h1
        · exact Or.inl h1
        · simp [hpc, MPc.failing] at h1
      · subst he
        exact Or.inr ⟨rfl, rfl⟩
    case statSpawn inputPath info hpc hget hcol =>
      intro e he
      simp only [List.mem_append, List.mem_singleton] at he
      rcases he with he | he
      · rcases hev e he with h1 | h1
        · exact Or.inl (by simp; omega)
        · simp [hpc, MPc.failing] at h1
      · subst he
        exact Or.inl (by simp)
    case mainFailLoad hpc =>
      intro e he
      rcases hev e he with h1 | h1
      · exact Or.inl h1
      · exact Or.inr ⟨h1.1, rfl⟩
    case mainFailStore v hpc =>
      intro e he
      simp only [List.mem_append, List.mem_singleton] at he
      rcases he with he | he
      · rcases hev e he with h1 | h1
        · exact Or.inl (by simp; omega)
        · exact Or.inl (by simp; omega)
      · subst he
        exact Or.inl (by simp)
    case waitDone hpc hwg =>
      intro e he
      rcases hev e he with h1 | h1
      · exact Or.inl h1
      · simp [hpc, MPc.failing] at h1
  · obtain ⟨i, u, pc', ops, hu, hunits, hpc, hidx, htn, htr, -⟩ := unitStep_frame h
    intro e he
    rw [hpc, hidx]
    rw [htr, List.mem_append] at he
    rcases he with he | he
    · exact hev e he
    · simp only [List.mem_map] at he
      obtain ⟨o, -, rfl⟩ := he
      exact Or.inl (hI.spawned i u hu).1

theorem inv_video {P : Platform} {cfg : Config} {matched : List String} {s s' : State}
    (hI : Inv P cfg matched s) (h : Step P cfg matched s s') :
    ∀ e ∈ s'.trace,
      ∃ p, matched[e.file]? = some p ∧ isVideoFile P.goos P.caseTable p = true := by
  have hvid := hI.video
  have hbody := hI.body
  rcases h with h | h
  · cases h
    case statErr inputPath hpc hget =>
      intro e he
      simp only [List.mem_append, List.mem_singleton] at he
      rcases he with he | he
      · exact hvid e he
      · subst he
        exact hbody (by simp [hpc, MPc.inBody])
    case statCollision inputPath info hpc hget hcol =>
      intro e he
      simp only [List.mem_append, List.mem_singleton] at he
      rcases he with he | he
      · exact hvid e he
      · subst he
        exact hbody (by simp [hpc, MPc.inBody])
    case statSpawn inputPath info hpc hget hcol =>
      intro e he
      simp only [List.mem_append, List.mem_singleton] at he
      rcases he with he | he
      · exact hvid e he
      · subst he
        exact hbody (by simp [hpc, MPc.inBody])
    case mainFailStore v hpc =>
      intro e he
      simp only [List.mem_append, List.mem_singleton] at he
      rcases he with he | he
      · exact hvid e he
      · subst he
        exact hbody (by simp [hpc, MPc.inBody])
    all_goals exact hvid
  · obtain ⟨i, u, pc', ops, hu, hunits, hpc, hidx, htn, htr, -⟩ := unitStep_frame h
    intro e he
    rw [htr, List.mem_append] at he
    rcases he with he | he
    · exact hvid e he
    · simp only [List.mem_map] at he
      obtain ⟨o, -, rfl⟩ := he
      obtain ⟨-, h2, h3, -⟩ := hI.spawned i u hu
      exact ⟨u.inputPath, h2, h3⟩

theorem stat_mem_unit_trace {trace : List Event} {ops : List Op} {i j : Nat}
    {r : Option FileInfo} (hops : ∀ o ∈ ops, o.isUnit = true)
    (h : (⟨j, Op.stat r⟩ : Event) ∈ trace ++ ops.map (Event.mk i)) :
    (⟨j, Op.stat r⟩ : Event) ∈ trace := by
  rw [List.mem_append] at h
  rcases h with h | h
  · exact h
  · simp only [List.mem_map] at h
    obtain ⟨o, ho, heq⟩ := h
    have := hops o ho
    cases heq
    simp [Op.isUnit] at this

theorem inv_collision {P : Platform} {cfg : Config} {matched : List String} {s s' : State}
    (hI : Inv P cfg matched s) (h : Step P cfg matched s s') :
    ∀ i info, (⟨i, Op.stat (some info)⟩ : Event) ∈ s'.trace →
      matched[i]? = some (outputPathOf P cfg info) → s'.units[i]? = some none := by
  have hcoll := hI.collision
  have hev := hI.events
  rcases h with h | h
  · cases h
    case statErr inputPath hpc hget =>
      intro i info he hm
      simp only [List.mem_append, List.mem_singleton] at he
      rcases he with he | he
      · exact hcoll i info he hm
      · cases he
    case statCollision inputPath info0 hpc hget hcol =>
      intro i info he hm
      simp only [List.mem_append, List.mem_singleton] at he
      rcases he with he | he
      · exact hcoll i info he hm
      · cases he
        have hlt : s.idx < matched.length := by
          rcases List.getElem?_eq_some.mp hget with ⟨hlt, -⟩
          exact hlt
        exact not_spawned_at_idx hI s.idx (Nat.le_refl _) hlt
    case statSpawn inputPath info0 hpc hget hcol =>
      intro i info he hm
      simp only [List.mem_append, List.mem_singleton] at he
      rcases he with he | he
      · have hi : i < s.idx := by
          rcases hev _ he with h1 | h1
          · exact h1
          · simp [hpc, MPc.failing] at h1
        have hne : s.idx ≠ i := by omega
        simp only [List.getElem?_set_ne hne]
        exact hcoll i info he hm
      · cases he
        rw [hget] at hm
        cases hm
        exact absurd rfl hcol
    case mainFailStore v hpc =>
      intro i info he hm
      simp only [List.mem_append, List.mem_singleton] at he
      rcases he with he | he
      · exact hcoll i info he hm
      · cases he
    all_goals exact hcoll
  · obtain ⟨i0, u, pc', ops, hu, hunits, hpc, hidx, htn, htr, hops⟩ := unitStep_frame h
    intro i info he hm
    rw [htr] at he
    have hold := hcoll i info (stat_mem_unit_trace hops he) hm
    have hne : i0 ≠ i := by
      intro heq
      subst heq
      rw [hu] at hold
      cases hold
    rw [hunits, List.getElem?_set_ne hne]
    exact hold

theorem inv_rejected {P : Platform} {cfg : Config} {matched : List String} {s s' : State}
    (hI : Inv P cfg matched s) (h : Step P cfg matched s s') :
    ∀ i, i < s'.idx → s'.units[i]? = some none →
      (∃ r, (⟨i, Op.stat r⟩ : Event) ∈ s'.trace) → (⟨i, Op.mainFail⟩ : Event) ∈ s'.trace := by
  have hrej := hI.rejected
  have hev := hI.events
  rcases h with h | h
  · cases h
    case loopSkip inputPath hpc hget hvid =>
      intro i hi hnone hstat
      obtain ⟨r, hr⟩ := hstat
      have hi' : i < s.idx := by
        rcases hev _ hr with h1 | h1
        · exact h1
        · simp [hpc, MPc.failing] at h1
      exact hrej i hi' hnone ⟨r, hr⟩
    case statErr inputPath hpc hget =>
      intro i hi hnone hstat
      obtain ⟨r, hr⟩ := hstat
      simp only [List.mem_append, List.mem_singleton] at hr ⊢
      rcases hr with hr | hr
      · exact Or.inl (hrej i hi hnone ⟨r, hr⟩)
      · cases hr
        exact absurd hi (Nat.lt_irrefl _)
    case statCollision inputPath info0 hpc hget hcol =>
      intro i hi hnone hstat
      obtain ⟨r, hr⟩ := hstat
      simp only [List.mem_append, List.mem_singleton] at hr ⊢
      rcases hr with hr | hr
      · exact Or.inl (hrej i hi hnone ⟨r, hr⟩)
      · cases hr
        exact absurd hi (Nat.lt_irrefl _)
    case statSpawn inputPath info0 hpc hget hcol =>
      intro i hi hnone hstat
      obtain ⟨r, hr⟩ := hstat
      obtain ⟨hnone', hne⟩ := getElem?_set_none hnone
      have hi' : i < s.idx := by
        have : i < s.idx + 1 := hi
        omega
      simp only [List.mem_append, List.mem_singleton] at hr ⊢
      rcases hr with hr | hr
      · exact Or.inl (hrej i hi' hnone' ⟨r, hr⟩)
      · cases hr
        exact absurd rfl hne
    case mainFailStore v hpc =>
      intro i hi hnone hstat
      obtain ⟨r, hr⟩ := hstat
      simp only [List.mem_append, List.mem_singleton] at hr ⊢
      rcases hr with hr | hr
      · by_cases hi' : i < s.idx
        · exact Or.inl (hrej i hi' hnone ⟨r, hr⟩)
        · have : i < s.idx + 1 := hi
          have hieq : i = s.idx := by omega
          subst hieq
          exact Or.inr rfl
      · cases hr
    all_goals exact hrej
  · obtain ⟨i0, u, pc', ops, hu, hunits, hpc, hidx, htn, htr, hops⟩ := unitStep_frame h
    intro i hi hnone hstat
    obtain ⟨r, hr⟩ := hstat
    rw [htr] at hr
    rw [hunits] at hnone
    rw [hidx] at hi
    rw [htr]
    exact List.mem_append_left _
      (hrej i hi (getElem?_set_none hnone).1 ⟨r, stat_mem_unit_trace hops hr⟩)

theorem unitOps_append_main (j i : Nat) (trace : List Event) (o : Op)
    (ho : o.isUnit = false) : unitOps j (trace ++ [⟨i, o⟩]) = unitOps j trace := by
  simp [unitOps, List.filter_append, List.filter_cons, ho]

theorem unitOps_append (j : Nat) (t1 t2 : List Event) :
    unitOps j (t1 ++ t2) = unitOps j t1 ++ unitOps j t2 := by
  simp [unitOps, List.filter_append]

theorem unitOps_map_self (i : Nat) (new : List Op) (hunit : ∀ o ∈ new, o.isUnit = true) :
    unitOps i (new.map (Event.mk i)) = new := by
  induction new with
  | nil => rfl
  | cons o rest ih =>
    have ho := hunit o (List.mem_cons_self _ _)
    have hrest := ih (fun o' ho' => hunit o' (List.mem_cons_of_mem _ ho'))
    simp only [unitOps] at hrest
    simp [unitOps, List.filter_cons, ho, hrest]

theorem unitOps_map_other (i j : Nat) (new : List Op) (hij : i ≠ j) :
    unitOps j (new.map (Event.mk i)) = [] := by
  induction new with
  | nil => rfl
  | cons o rest ih =>
    simp only [unitOps] at ih
    simp [unitOps, List.filter_cons, hij, ih]

/-- The recorded operations stay consistent when a goroutine other than `j` moves, and
when goroutine `i` moves from a control point to one whose expected operations are
the old ones extended by `new`. -/
theorem opsOK_unit_move {P : Platform} {cfg : Config} {units : List (Option WorkUnit)}
    {trace : List Event} {i : Nat} {u : WorkUnit} (pc' : UPc) (new : List Op)
    (hu : units[i]? = some (some u))
    (hold : ∀ j, OpsOK P cfg units[j]? (unitOps j trace))
    (hnew : ∀ ops, ops ∈ expectedOps P cfg u u.pc → ops ++ new ∈ expectedOps P cfg u pc')
    (hunit : ∀ o ∈ new, o.isUnit = true) :
    ∀ j, OpsOK P cfg (units.set i (some { u with pc := pc' }))[j]?
      (unitOps j (trace ++ new.map (Event.mk i))) := by
  intro j
  have hlt : i < units.length := by
    rcases List.getElem?_eq_some.mp hu with ⟨hlt, -⟩
    exact hlt
  by_cases hij : i = j
  · subst hij
    have h2 := hold i
    rw [hu] at h2
    rw [List.getElem?_set_self hlt, unitOps_append, unitOps_map_self i new hunit]
    exact hnew _ h2
  · rw [List.getElem?_set_ne hij, unitOps_append, unitOps_map_other i j new hij,
      List.append_nil]
    exact hold j

theorem opsOK_main_event {P : Platform} {cfg : Config} {units : List (Option WorkUnit)}
    {trace : List Event} (i : Nat) (o : Op) (ho : o.isUnit = false)
    (hold : ∀ j, OpsOK P cfg units[j]? (unitOps j trace)) :
    ∀ j, OpsOK P cfg units[j]? (unitOps j (trace ++ [⟨i, o⟩])) := by
  intro j
  rw [unitOps_append_main j i trace o ho]
  exact hold j

theorem inv_ops {P : Platform} {cfg : Config} {matched : List String} {s s' : State}
    (hI : Inv P cfg matched s) (h : Step P cfg matched s s') :
    ∀ j, OpsOK P cfg s'.units[j]? (unitOps j s'.trace) := by
  have hops := hI.ops
  rcases h with h | h
  · cases h
    case statErr inputPath hpc hget => exact opsOK_main_event _ _ rfl hops
    case statCollision inputPath info hpc hget hcol => exact opsOK_main_event _ _ rfl hops
    case mainFailStore v hpc => exact opsOK_main_event _ _ rfl hops
    case statSpawn inputPath info hpc hget hcol =>
      intro j
      have hlt : s.idx < matched.length := by
        rcases List.getElem?_eq_some.mp hget with ⟨hlt, -⟩
        exact hlt
      have hj := opsOK_main_event s.idx (Op.stat (some info)) rfl hops j
      by_cases hij : s.idx = j
      · subst hij
        have hnone := not_spawned_at_idx hI s.idx (Nat.le_refl _) hlt
        rw [hnone] at hj
        have hlen := hI.len
        simp only [OpsOK] at hj
        simp only [List.getElem?_set_self (by omega : s.idx < s.units.length), OpsOK, hj,
          expectedOps]
        simp
      · simp only [List.getElem?_set_ne hij]
        exact hj
    all_goals exact hops
  · cases h
    case acquire i u hu hpc hfree =>
      have := opsOK_unit_move (UPc.mkdirAll) [] hu hops
        (by intro ops h; rw [hpc] at h; simpa [expectedOps] using h) (by simp)
      simpa using this
    case mkdirAll i u ok hu hpc =>
      have := opsOK_unit_move (if ok then UPc.copyFile else UPc.failLoad)
        [Op.mkdirAll (backupDir P cfg) ok] hu hops
        (by
          intro ops h
          rw [hpc] at h
          cases ok <;> simp_all [expectedOps, completeRuns])
        (by simp [Op.isUnit])
      simpa using this
    case copyFile i u ok hu hpc =>
      have := opsOK_unit_move (if ok then UPc.processVideo else UPc.failLoad)
        [Op.copyFile u.inputPath (backupPath P cfg u.inputPath) ok] hu hops
        (by
          intro ops h
          rw [hpc] at h
          cases ok <;> simp_all [expectedOps, completeRuns])
        (by simp [Op.isUnit])
      simpa using this
    case processVideo i u ok hu hpc =>
      have := opsOK_unit_move (if ok then UPc.successLoad else UPc.failLoad)
        [Op.exec (unitCmd cfg u) ok] hu hops
        (by
          intro ops h
          rw [hpc] at h
          cases ok <;> simp_all [expectedOps, completeRuns])
        (by simp [Op.isUnit])
      simpa using this
    case failLoad i u hu hpc =>
      have := opsOK_unit_move (UPc.failStore s.failNum) [] hu hops
        (by intro ops h; rw [hpc] at h; simpa [expectedOps] using h) (by simp)
      simpa using this
    case failStore i u v hu hpc =>
      have := opsOK_unit_move (UPc.wgDone) [Op.unitFail] hu hops
        (by
          intro ops h
          rw [hpc] at h
          simp only [expectedOps, completeRuns, List.map, List.take, List.dropLast,
            List.mem_cons, List.mem_singleton, List.not_mem_nil, or_false] at h
          rcases h with h | h | h <;> subst h <;> simp [expectedOps, completeRuns])
        (by simp [Op.isUnit])
      simpa using this
    case successLoad i u hu hpc =>
      have := opsOK_unit_move (UPc.successStore s.successNum) [] hu hops
        (by intro ops h; rw [hpc] at h; simpa [expectedOps] using h) (by simp)
      simpa using this
    case successStore i u v hu hpc =>
      have := opsOK_unit_move (UPc.wgDone) [Op.unitSuccess] hu hops
        (by
          intro ops h
          rw [hpc] at h
          simp only [expectedOps, completeRuns, List.map, List.drop, List.dropLast,
            List.mem_cons, List.mem_singleton, List.not_mem_nil, or_false] at h
          subst h
          simp [expectedOps, completeRuns])
        (by simp [Op.isUnit])
      simpa using this
    case wgDone i u hu hpc =>
      have := opsOK_unit_move (UPc.release) [] hu hops
        (by intro ops h; rw [hpc] at h; simpa [expectedOps] using h) (by simp)
      simpa using this
    case release i u hu hpc hpos =>
      have := opsOK_unit_move (UPc.done) [] hu hops
        (by intro ops h; rw [hpc] at h; simpa [expectedOps] using h) (by simp)
      simpa using this

theorem countP_set_slot (p : Option WorkUnit → Bool) (units : List (Option WorkUnit))
    (i : Nat) (a b : Option WorkUnit) (h : units[i]? = some b) :
    (units.set i a).countP p + (if p b = true then 1 else 0) =
      units.countP p + (if p a = true then 1 else 0) := by
  rcases List.getElem?_eq_some.mp h with ⟨hlt, hb⟩
  have hle : (if p units[i] = true then 1 else 0) ≤ units.countP p :=
    List.boole_getElem_le_countP p units i hlt
  rw [List.countP_set p units i a hlt, hb] at *
  omega

theorem holding_unit_move (units : List (Option WorkUnit)) (i : Nat) (u : WorkUnit)
    (pc' : UPc) (hu : units[i]? = some (some u)) :
    holding (units.set i (some { u with pc := pc' })) + (if u.pc.holds = true then 1 else 0) =
      holding units + (if pc'.holds = true then 1 else 0) := by
  have := countP_set_slot slotHolds units i (some { u with pc := pc' }) (some u) hu
  simpa [holding, slotHolds] using this

theorem pending_unit_move (units : List (Option WorkUnit)) (i : Nat) (u : WorkUnit)
    (pc' : UPc) (hu : units[i]? = some (some u)) :
    pending (units.set i (some { u with pc := pc' })) +
        (if u.pc.pending = true then 1 else 0) =
      pending units + (if pc'.pending = true then 1 else 0) := by
  have := countP_set_slot slotPending units i (some { u with pc := pc' }) (some u) hu
  simpa [pending, slotPending] using this

theorem inv_sem {P : Platform} {cfg : Config} {matched : List String} {s s' : State}
    (hI : Inv P cfg matched s) (h : Step P cfg matched s s') :
    holding s'.units = s'.semaphore := by
  have hsem := hI.sem
  rcases h with h | h
  · cases h
    case statSpawn inputPath info hpc hget hcol =>
      have hlt : s.idx < matched.length := by
        rcases List.getElem?_eq_some.mp hget with ⟨hlt, -⟩
        exact hlt
      have hnone := not_spawned_at_idx hI s.idx (Nat.le_refl _) hlt
      have := countP_set_slot slotHolds s.units s.idx
        (some { inputPath := inputPath, outputPath := outputPathOf P cfg info,
                fileSize := info.Size, pc := UPc.acquire }) none hnone
      simp only [slotHolds, UPc.holds] at this
      simp only [holding] at hsem ⊢
      simp at this
      omega
    all_goals exact hsem
  · cases h
    case acquire i u hu hpc hfree =>
      have := holding_unit_move s.units i u UPc.mkdirAll hu
      simp [hpc, UPc.holds] at this ⊢
      omega
    case mkdirAll i u ok hu hpc =>
      have := holding_unit_move s.units i u (if ok then UPc.copyFile else UPc.failLoad) hu
      cases ok <;> simp [hpc, UPc.holds] at this ⊢ <;> omega
    case copyFile i u ok hu hpc =>
      have := holding_unit_move s.units i u (if ok then UPc.processVideo else UPc.failLoad) hu
      cases ok <;> simp [hpc, UPc.holds] at this ⊢ <;> omega
    case processVideo i u ok hu hpc =>
      have := holding_unit_move s.units i u (if ok then UPc.successLoad else UPc.failLoad) hu
      cases ok <;> simp [hpc, UPc.holds] at this ⊢ <;> omega
    case failLoad i u hu hpc =>
      have := holding_unit_move s.units i u (UPc.failStore s.failNum) hu
      simp [hpc, UPc.holds] at this ⊢
      omega
    case failStore i u v hu hpc =>
      have := holding_unit_move s.units i u UPc.wgDone hu
      simp [hpc, UPc.holds] at this ⊢
      omega
    case successLoad i u hu hpc =>
      have := holding_unit_move s.units i u (UPc.successStore s.successNum) hu
      simp [hpc, UPc.holds] at this ⊢
      omega
    case successStore i u v hu hpc =>
      have := holding_unit_move s.units i u UPc.wgDone hu
      simp [hpc, UPc.holds] at this ⊢
      omega
    case wgDone i u hu hpc =>
      have := holding_unit_move s.units i u UPc.release hu
      simp [hpc, UPc.holds] at this ⊢
      omega
    case release i u hu hpc hpos =>
      have := holding_unit_move s.units i u UPc.done hu
      simp [hpc, UPc.holds] at this ⊢
      omega

theorem inv_wgEq {P : Platform} {cfg : Config} {matched : List String} {s s' : State}
    (hI : Inv P cfg matched s) (h : Step P cfg matched s s') :
    s'.wg = pending s'.units := by
  have hwg := hI.wgEq
  rcases h with h | h
  · cases h
    case statSpawn inputPath info hpc hget hcol =>
      have hlt : s.idx < matched.length := by
        rcases List.getElem?_eq_some.mp hget with ⟨hlt, -⟩
        exact hlt
      have hnone := not_spawned_at_idx hI s.idx (Nat.le_refl _) hlt
      have := countP_set_slot slotPending s.units s.idx
        (some { inputPath := inputPath, outputPath := outputPathOf P cfg info,
                fileSize := info.Size, pc := UPc.acquire }) none hnone
      simp only [slotPending, UPc.pending] at this
      simp only [pending] at hwg ⊢
      simp at this
      omega
    all_goals exact hwg
  · cases h
    case acquire i u hu hpc hfree =>
      have := pending_unit_move s.units i u UPc.mkdirAll hu
      simp [hpc, UPc.pending] at this ⊢
      omega
    case mkdirAll i u ok hu hpc =>
      have := pending_unit_move s.units i u (if ok then UPc.copyFile else UPc.failLoad) hu
      cases ok <;> simp [hpc, UPc.pending] at this ⊢ <;> omega
    case copyFile i u ok hu hpc =>
      have := pending_unit_move s.units i u (if ok then UPc.processVideo else UPc.failLoad) hu
      cases ok <;> simp [hpc, UPc.pending] at this ⊢ <;> omega
    case processVideo i u ok hu hpc =>
      have := pending_unit_move s.units i u (if ok then UPc.successLoad else UPc.failLoad) hu
      cases ok <;> simp [hpc, UPc.pending] at this ⊢ <;> omega
    case failLoad i u hu hpc =>
      have := pending_unit_move s.units i u (UPc.failStore s.failNum) hu
      simp [hpc, UPc.pending] at this ⊢
      omega
    case failStore i u v hu hpc =>
      have := pending_unit_move s.units i u UPc.wgDone hu
      simp [hpc, UPc.pending] at this ⊢
      omega
    case successLoad i u hu hpc =>
      have := pending_unit_move s.units i u (UPc.successStore s.successNum) hu
      simp [hpc, UPc.pending] at this ⊢
      omega
    case successStore i u v hu hpc =>
      have := pending_unit_move s.units i u UPc.wgDone hu
      simp [hpc, UPc.pending] at this ⊢
      omega
    case wgDone i u hu hpc =>
      have := pending_unit_move s.units i u UPc.release hu
      simp [hpc, UPc.pending] at this ⊢
      omega
    case release i u hu hpc hpos =>
      have := pending_unit_move s.units i u UPc.done hu
      simp [hpc, UPc.pending] at this ⊢
      omega

theorem inv_semLe {P : Platform} {cfg : Config} {matched : List String} {s s' : State}
    (hI : Inv P cfg matched s) (h : Step P cfg matched s s') :
    s'.semaphore = 0 ∨ (s'.semaphore : Int) ≤ cfg.maxConcurrency := by
  have hle := hI.semLe
  rcases h with h | h
  · cases h <;> exact hle
  · cases h
    case acquire i u hu hpc hfree =>
      right
      simp only [Nat.cast_add, Nat.cast_one]
      omega
    case release i u hu hpc hpos =>
      rcases hle with h0 | h1
      · omega
      · right
        simp only
        omega
    all_goals exact hle

theorem inv_cap0 {P : Platform} {cfg : Config} {matched : List String} {s s' : State}
    (hI : Inv P cfg matched s) (h : Step P cfg matched s s') :
    cfg.maxConcurrency ≤ 0 →
      ∀ (i : Nat) (u : WorkUnit), s'.units[i]? = some (some u) → u.pc = UPc.acquire := by
  intro hcap
  have hc := hI.cap0 hcap
  rcases h with h | h
  · cases h
    case statSpawn inputPath info hpc hget hcol =>
      intro i u hu
      simp only [List.getElem?_set] at hu
      split at hu
      · split at hu
        · cases hu
          rfl
        · cases hu
      · exact hc i u hu
    all_goals exact hc
  · cases h
    case acquire i u hu hpc hfree =>
      have : (0 : Int) ≤ s.semaphore := Int.ofNat_nonneg _
      omega
    case release i u hu hpc hpos =>
      have := hc _ _ hu
      rw [this] at hpc
      cases hpc
    all_goals
      rename_i hu hpc
      have := hc _ _ hu
      rw [this] at hpc
      cases hpc


theorem inv_neg {P : Platform} {cfg : Config} {matched : List String} {s s' : State}
    (hI : Inv P cfg matched s) (h : Step P cfg matched s s') :
    cfg.maxConcurrency < 0 → (s'.pc = MPc.makeChan ∨ s'.pc = MPc.panicked) ∧ s'.idx = 0 := by
  intro hneg
  have hn := hI.neg hneg
  rcases h with h | h
  · cases h <;> simp_all
  · obtain ⟨i, u, pc', ops, hu, hunits, hpc, hidx, -⟩ := unitStep_frame h
    rw [hpc, hidx]
    exact hn

theorem inv_exitWg {P : Platform} {cfg : Config} {matched : List String} {s s' : State}
    (hI : Inv P cfg matched s) (h : Step P cfg matched s s') :
    s'.pc = MPc.exited → s'.wg = 0 := by
  have hx := hI.exitWg
  rcases h with h | h
  · cases h <;> simp_all
  · cases h <;> simp_all

/-- Every step preserves the invariant. -/
theorem inv_step {P : Platform} {cfg : Config} {matched : List String} {s s' : State}
    (hI : Inv P cfg matched s) (h : Step P cfg matched s s') : Inv P cfg matched s' :=
  { len := inv_len hI h
    spawned := inv_spawned hI h
    body := inv_body hI h
    atEnd := inv_atEnd hI h
    total := inv_total hI h
    events := inv_events hI h
    video := inv_video hI h
    collision := inv_collision hI h
    rejected := inv_rejected hI h
    ops := inv_ops hI h
    sem := inv_sem hI h
    semLe := inv_semLe hI h
    wgEq := inv_wgEq hI h
    cap0 := inv_cap0 hI h
    neg := inv_neg hI h
    exitWg := inv_exitWg hI h }

theorem inv_init (P : Platform) (cfg : Config) (matched : List String) :
    Inv P cfg matched (init matched) :=
  { len := by simp [init]
    spawned := by
      intro i u hu
      simp [init, List.getElem?_replicate] at hu
    body := by simp [init, MPc.inBody]
    atEnd := by simp [init]
    total := by simp [init, MPc.inBody]
    events := by simp [init]
    video := by simp [init]
    collision := by simp [init]
    rejected := by simp [init]
    ops := by
      intro i
      simp only [init, List.getElem?_replicate]
      split <;> simp [OpsOK, unitOps]
    sem := by simp [init, holding, slotHolds]
    semLe := by simp [init]
    wgEq := Eq.symm (by simp [init, pending, slotPending])
    cap0 := by
      intro _ i u hu
      simp [init, List.getElem?_replicate] at hu
    neg := by simp [init]
    exitWg := by simp [init] }

/-- Every state reached from the initial state satisfies the invariant. -/
theorem inv_run (P : Platform) (cfg : Config) (matched : List String) (acts : List Action)
    (s : State) (h : run P cfg matched (init matched) acts = some s) : Inv P cfg matched s :=
  run_invariant P cfg matched (Inv P cfg matched) (fun _ _ hI hs => inv_step hI hs)
    acts (init matched) s (inv_init P cfg matched) h

/-! ## The claims about the batch loop -/

/-- Claim C5, at a failing run: two videos are converted successfully by two goroutines
that both load `successNum` before either stores it; the program reports
`total = 2`, `succeeded = 1`, `failed = 0`, so `total ≠ succeeded + failed`. -/
theorem counters_lose_update :
    (run unixPlatform (defaultConfig "output" 4) ["a.avi", "b.mkv"] (init ["a.avi", "b.mkv"])
        lostUpdateRun).map
      (fun s => (s.pc, s.totalNum, s.successNum, s.failNum,
        decide (s.totalNum = s.successNum + s.failNum))) =
      some (MPc.exited, 2, 1, 0, false) := by
  decide

/-- Claim C6: a file whose output path equals its input path never gets a goroutine
and no backup or encoder operation, `main` records its failure before moving on, and
every goroutine that is started has an output path different from its input path. -/
theorem collision_rejected_before_scheduling (P : Platform) (cfg : Config)
    (matched : List String) (acts : List Action) (s : State)
    (hrun : run P cfg matched (init matched) acts = some s) :
    (∀ (i : Nat) (info : FileInfo), (⟨i, Op.stat (some info)⟩ : Event) ∈ s.trace →
      matched[i]? = some (outputPathOf P cfg info) →
        s.units[i]? = some none ∧ unitOps i s.trace = [] ∧
        (i < s.idx → (⟨i, Op.mainFail⟩ : Event) ∈ s.trace)) ∧
    (∀ (i : Nat) (u : WorkUnit), s.units[i]? = some (some u) →
      matched[i]? = some u.inputPath ∧ u.outputPath ≠ u.inputPath) := by
  have hI := inv_run P cfg matched acts s hrun
  refine ⟨?_, ?_⟩
  · intro i info he hm
    have hnone := hI.collision i info he hm
    have hops := hI.ops i
    rw [hnone] at hops
    exact ⟨hnone, hops, fun hi => hI.rejected i hi hnone ⟨_, he⟩⟩
  · intro i u hu
    obtain ⟨-, h2, -, h4⟩ := hI.spawned i u hu
    exact ⟨h2, h4⟩

theorem collision_rejected_before_scheduling_witness :
    (finalState unixPlatform (defaultConfig "out" 4) ["out/a.mp4"] collisionRun).trace =
      [⟨0, Op.stat (some ⟨"a.mp4", 1000⟩)⟩, ⟨0, Op.mainFail⟩] ∧
    outputPathOf unixPlatform (defaultConfig "out" 4) ⟨"a.mp4", 1000⟩ = "out/a.mp4" ∧
    (finalState unixPlatform (defaultConfig "out" 4) ["out/a.mp4"] collisionRun).units[0]?
      = some none ∧
    unitOps 0 (finalState unixPlatform (defaultConfig "out" 4) ["out/a.mp4"] collisionRun).trace
      = [] :=
  have h := (collision_rejected_before_scheduling unixPlatform (defaultConfig "out" 4)
    ["out/a.mp4"] collisionRun
    (finalState unixPlatform (defaultConfig "out" 4) ["out/a.mp4"] collisionRun)
    (by decide)).1 0 ⟨"a.mp4", 1000⟩ (by decide) (by decide)
  ⟨by decide, by decide, h.1, h.2.1⟩

/-- Claim C7: the operations of a goroutine are a prefix of one of its four complete
runs (directory creation failed; copy failed; encoder failed; encoder succeeded), and
are exactly one of them once the goroutine has finished its body: the encoder runs at most
once, only after `os.MkdirAll` and `copyFile` succeeded, and a failed backup step is
followed by one `failNum++` and nothing else. -/
theorem backup_precedes_encode (P : Platform) (cfg : Config) (matched : List String)
    (acts : List Action) (s : State) (i : Nat) (u : WorkUnit)
    (hrun : run P cfg matched (init matched) acts = some s)
    (hu : s.units[i]? = some (some u)) :
    (∃ full ∈ completeRuns P cfg u, unitOps i s.trace <+: full) ∧
    (u.pc.rank ≤ 2 → unitOps i s.trace ∈ completeRuns P cfg u) ∧
    (unitOps i s.trace).countP (fun o => match o with | Op.exec _ _ => true | _ => false) ≤ 1
    := by
  have hI := inv_run P cfg matched acts s hrun
  have hops := hI.ops i
  rw [hu] at hops
  simp only [OpsOK] at hops
  have key : ∀ ops : List Op, ops ∈ expectedOps P cfg u u.pc →
      (∃ full ∈ completeRuns P cfg u, ops <+: full) ∧
      (u.pc.rank ≤ 2 → ops ∈ completeRuns P cfg u) ∧
      ops.countP (fun o => match o with | Op.exec _ _ => true | _ => false) ≤ 1 := by
    intro ops hmem
    have hpre : ∀ n k : Nat, n < 4 → ((completeRuns P cfg u).getD n []).take k = ops →
        ∃ full ∈ completeRuns P cfg u, ops <+: full := by
      intro n k hn hk
      refine ⟨(completeRuns P cfg u).getD n [], ?_, hk ▸ List.take_prefix k _⟩
      interval_cases n <;> simp [completeRuns]
    cases hpc : u.pc <;> rw [hpc] at hmem <;>
      simp only [expectedOps, completeRuns, List.map, List.take, List.drop, List.dropLast,
        List.mem_cons, List.mem_singleton, List.not_mem_nil, or_false] at hmem
    case acquire =>
      subst hmem
      exact ⟨hpre 0 0 (by omega) rfl, by simp [UPc.rank], by simp⟩
    case mkdirAll =>
      subst hmem
      exact ⟨hpre 0 0 (by omega) rfl, by simp [UPc.rank], by simp⟩
    case copyFile =>
      subst hmem
      exact ⟨hpre 1 1 (by omega) rfl, by simp [UPc.rank],
        by simp [List.countP_cons]⟩
    case processVideo =>
      subst hmem
      exact ⟨hpre 2 2 (by omega) rfl, by simp [UPc.rank],
        by simp [List.countP_cons]⟩
    case failLoad =>
      rcases hmem with h | h | h <;> subst h
      · exact ⟨hpre 0 1 (by omega) rfl, by simp [UPc.rank],
          by simp [List.countP_cons]⟩
      · exact ⟨hpre 1 2 (by omega) rfl, by simp [UPc.rank],
          by simp [List.countP_cons]⟩
      · exact ⟨hpre 2 3 (by omega) rfl,
          by simp [UPc.rank], by simp [List.countP_cons]⟩
    case failStore v =>
      rcases hmem with h | h | h <;> subst h
      · exact ⟨hpre 0 1 (by omega) rfl, by simp [UPc.rank],
          by simp [List.countP_cons]⟩
      · exact ⟨hpre 1 2 (by omega) rfl, by simp [UPc.rank],
          by simp [List.countP_cons]⟩
      · exact ⟨hpre 2 3 (by omega) rfl,
          by simp [UPc.rank], by simp [List.countP_cons]⟩
    case successLoad =>
      subst hmem
      exact ⟨hpre 3 3 (by omega) rfl, by simp [UPc.rank], by simp [List.countP_cons]⟩
    case successStore v =>
      subst hmem
      exact ⟨hpre 3 3 (by omega) rfl, by simp [UPc.rank], by simp [List.countP_cons]⟩
    all_goals
      refine ⟨?_, fun _ => by simp [completeRuns, hmem], ?_⟩
      · rcases hmem with h | h | h | h <;> subst h
        · exact hpre 0 2 (by omega) rfl
        · exact hpre 1 3 (by omega) rfl
        · exact hpre 2 4 (by omega) rfl
        · exact hpre 3 4 (by omega) rfl
      · rcases hmem with h | h | h | h <;> subst h <;> simp [List.countP_cons]
  exact key _ hops

theorem backup_precedes_encode_witness :
    unitOps 2 (finalState unixPlatform (defaultConfig "output" 4) scenarioFiles scenarioRun).trace
      = [Op.mkdirAll "output/backup" true,
         Op.copyFile "big.mkv" "output/backup/big.mkv" true,
         Op.exec ⟨"ffmpeg", ["-i", "big.mkv", "-c:v", "libx264", "-c:a", "copy",
           "-preset", "veryslow", "-crf", "28", "output/big.mp4"]⟩ true,
         Op.unitSuccess] ∧
    unitOps 2 (finalState unixPlatform (defaultConfig "output" 4) scenarioFiles scenarioRun).trace
      ∈ completeRuns unixPlatform (defaultConfig "output" 4)
          ⟨"big.mkv", "output/big.mp4", 15000000, UPc.done⟩ :=
  ⟨by decide,
   (backup_precedes_encode unixPlatform (defaultConfig "output" 4) scenarioFiles scenarioRun
      (finalState unixPlatform (defaultConfig "output" 4) scenarioFiles scenarioRun) 2
      ⟨"big.mkv", "output/big.mp4", 15000000, UPc.done⟩ (by decide) (by decide)).2.1
      (by decide)⟩

/-- Claim C8, as stated, fails: with `-concurrency 0` the program goes through the whole
list, starts a goroutine for the video and reaches `wg.Wait()`. -/
theorem zero_concurrency_not_rejected :
    (run unixPlatform (defaultConfig "output" 0) ["a.avi"] (init ["a.avi"])
        zeroConcurrencyRun).map (fun s => (s.pc, s.units)) =
      some (MPc.wait, [some ⟨"a.avi", "output/a.mp4", 1000, UPc.acquire⟩]) := by
  decide

theorem spawned_pending_pos {units : List (Option WorkUnit)} {i : Nat} {u : WorkUnit}
    (hu : units[i]? = some (some u)) (hp : u.pc.pending = true) : 0 < pending units := by
  rcases List.getElem?_eq_some.mp hu with ⟨hlt, hget⟩
  have := List.boole_getElem_le_countP slotPending units i hlt
  rw [hget] at this
  simp only [slotPending, hp, if_true] at this
  exact this

theorem spawned_holding_pos {units : List (Option WorkUnit)} {i : Nat} {u : WorkUnit}
    (hu : units[i]? = some (some u)) (hp : u.pc.holds = true) : 0 < holding units := by
  rcases List.getElem?_eq_some.mp hu with ⟨hlt, hget⟩
  have := List.boole_getElem_le_countP slotHolds units i hlt
  rw [hget] at this
  simp only [slotHolds, hp, if_true] at this
  exact this

/-- Claim C8, amended: `maxConcurrency` is not validated.  A negative value makes the
creation of the channel panic before any file is looked at.  With the value `0` files
are still scheduled, but no goroutine can ever take a step: none acquires a slot, none
makes a backup or encoder call, and `main` does not get past `wg.Wait()` once a goroutine
has been started. -/
theorem nonpositive_concurrency_never_runs (P : Platform) (cfg : Config)
    (matched : List String) (acts : List Action) (s : State)
    (hcap : cfg.maxConcurrency ≤ 0)
    (hrun : run P cfg matched (init matched) acts = some s) :
    (cfg.maxConcurrency < 0 →
      (s.pc = MPc.makeChan ∨ s.pc = MPc.panicked) ∧ s.trace = [] ∧
      ∀ (i : Nat) (u : WorkUnit), s.units[i]? ≠ some (some u)) ∧
    (∀ (i : Nat) (u : WorkUnit), s.units[i]? = some (some u) →
      u.pc = UPc.acquire ∧ unitOps i s.trace = [] ∧
      ∀ env : Env, step P cfg matched s ⟨Thread.unit i, env⟩ = none) ∧
    s.semaphore = 0 ∧
    (s.pc = MPc.exited → ∀ (i : Nat) (u : WorkUnit), s.units[i]? ≠ some (some u)) := by
  have hI := inv_run P cfg matched acts s hrun
  have hacq := hI.cap0 hcap
  refine ⟨?_, ?_, ?_, ?_⟩
  · intro hneg
    obtain ⟨hpc, hidx⟩ := hI.neg hneg
    refine ⟨hpc, ?_, ?_⟩
    · cases htr : s.trace with
      | nil => rfl
      | cons e rest =>
        have he : e ∈ s.trace := by rw [htr]; exact List.mem_cons_self _ _
        rcases hI.events e he with h1 | h1
        · omega
        · rcases hpc with hpc | hpc <;> simp [hpc, MPc.failing] at h1
    · intro i u hu
      have := (hI.spawned i u hu).1
      omega
  · intro i u hu
    have hpc := hacq i u hu
    have hops := hI.ops i
    rw [hu] at hops
    simp only [OpsOK, hpc, expectedOps, List.mem_singleton] at hops
    refine ⟨hpc, hops, ?_⟩
    intro env
    have : ¬ ((s.semaphore : Int) < cfg.maxConcurrency) := by
      have : (0 : Int) ≤ s.semaphore := Int.ofNat_nonneg _
      omega
    simp [step, hu, unitStep, hpc, this]
  · rcases hI.semLe with h0 | h1
    · exact h0
    · have : (0 : Int) ≤ s.semaphore := Int.ofNat_nonneg _
      omega
  · intro hexit i u hu
    have hwg := hI.exitWg hexit
    have hpos := spawned_pending_pos hu (by rw [hacq i u hu]; rfl)
    have := hI.wgEq
    omega

theorem nonpositive_concurrency_never_runs_witness :
    (finalState unixPlatform (defaultConfig "output" 0) ["a.avi"] zeroConcurrencyRun).units[0]?
      = some (some ⟨"a.avi", "output/a.mp4", 1000, UPc.acquire⟩) ∧
    unitOps 0 (finalState unixPlatform (defaultConfig "output" 0) ["a.avi"]
      zeroConcurrencyRun).trace = [] ∧
    step unixPlatform (defaultConfig "output" 0) ["a.avi"]
      (finalState unixPlatform (defaultConfig "output" 0) ["a.avi"] zeroConcurrencyRun)
      (unitAct 0) = none :=
  have h := (nonpositive_concurrency_never_runs unixPlatform (defaultConfig "output" 0)
    ["a.avi"] zeroConcurrencyRun
    (finalState unixPlatform (defaultConfig "output" 0) ["a.avi"] zeroConcurrencyRun)
    (by decide) (by decide)).2.1 0 ⟨"a.avi", "output/a.mp4", 1000, UPc.acquire⟩ (by decide)
  ⟨by decide, h.2.1, h.2.2 (unitAct 0).env⟩

/-- A goroutine that holds a slot can always take its next step, whatever the system
answers; the step brings it closer to its end, and it stops holding the slot only by
the deferred `<-semaphore`, which frees the slot. -/
theorem holder_progress (P : Platform) (cfg : Config) (matched : List String) (s : State)
    (hsem : holding s.units = s.semaphore) (i : Nat) (u : WorkUnit) (env : Env)
    (hu : s.units[i]? = some (some u)) (hh : u.pc.holds = true) :
    ∃ (s' : State) (u' : WorkUnit),
      step P cfg matched s ⟨Thread.unit i, env⟩ = some s' ∧
      s'.units[i]? = some (some u') ∧ u'.pc.rank < u.pc.rank ∧
      (u'.pc.holds = true → s'.semaphore = s.semaphore) ∧
      (u'.pc.holds = false → u'.pc = UPc.done ∧ s'.semaphore + 1 = s.semaphore) := by
  have hlt : i < s.units.length := by
    rcases List.getElem?_eq_some.mp hu with ⟨hlt, -⟩
    exact hlt
  have hpos : 0 < s.semaphore := hsem ▸ spawned_holding_pos hu hh
  cases hpc : u.pc
  case acquire => simp [hpc, UPc.holds] at hh
  case done => simp [hpc, UPc.holds] at hh
  case mkdirAll =>
    refine ⟨_, _, by simp [step, hu, unitStep, hpc]; rfl,
      by simp [List.getElem?_set_self hlt]; rfl, ?_, ?_, ?_⟩
    · cases env.mkdirOk <;> simp [UPc.rank]
    · intro; rfl
    · cases env.mkdirOk <;> simp [UPc.holds]
  case copyFile =>
    refine ⟨_, _, by simp [step, hu, unitStep, hpc]; rfl,
      by simp [List.getElem?_set_self hlt]; rfl, ?_, ?_, ?_⟩
    · cases copyFile env <;> simp [UPc.rank]
    · intro; rfl
    · cases copyFile env <;> simp [UPc.holds]
  case processVideo =>
    refine ⟨_, _, by simp [step, hu, unitStep, hpc]; rfl,
      by simp [List.getElem?_set_self hlt]; rfl, ?_, ?_, ?_⟩
    · cases env.ffmpegOk <;> simp [UPc.rank]
    · intro; rfl
    · cases env.ffmpegOk <;> simp [UPc.holds]
  case failLoad =>
    refine ⟨{ s with units := s.units.set i (some { u with pc := UPc.failStore s.failNum }) },
      { u with pc := UPc.failStore s.failNum }, by simp [step, hu, unitStep, hpc],
      by simp [List.getElem?_set_self hlt], by simp [UPc.rank], fun _ => rfl,
      by simp [UPc.holds]⟩
  case failStore v =>
    refine ⟨{ s with failNum := v + 1,
                     units := s.units.set i (some { u with pc := UPc.wgDone }),
                     trace := s.trace ++ [⟨i, Op.unitFail⟩] },
      { u with pc := UPc.wgDone }, by simp [step, hu, unitStep, hpc],
      by simp [List.getElem?_set_self hlt], by simp [UPc.rank], fun _ => rfl,
      by simp [UPc.holds]⟩
  case successLoad =>
    refine ⟨{ s with units := s.units.set i (some { u with pc := UPc.successStore s.successNum }) },
      { u with pc := UPc.successStore s.successNum }, by simp [step, hu, unitStep, hpc],
      by simp [List.getElem?_set_self hlt], by simp [UPc.rank], fun _ => rfl,
      by simp [UPc.holds]⟩
  case successStore v =>
    refine ⟨{ s with successNum := v + 1,
                     units := s.units.set i (some { u with pc := UPc.wgDone }),
                     trace := s.trace ++ [⟨i, Op.unitSuccess⟩] },
      { u with pc := UPc.wgDone }, by simp [step, hu, unitStep, hpc],
      by simp [List.getElem?_set_self hlt], by simp [UPc.rank], fun _ => rfl,
      by simp [UPc.holds]⟩
  case wgDone =>
    refine ⟨{ s with wg := s.wg - 1, units := s.units.set i (some { u with pc := UPc.release }) },
      { u with pc := UPc.release }, by simp [step, hu, unitStep, hpc],
      by simp [List.getElem?_set_self hlt], by simp [UPc.rank], fun _ => rfl,
      by simp [UPc.holds]⟩
  case release =>
    refine ⟨{ s with semaphore := s.semaphore - 1,
                     units := s.units.set i (some { u with pc := UPc.done }) },
      { u with pc := UPc.done }, by simp [step, hu, unitStep, hpc, hpos],
      by simp [List.getElem?_set_self hlt], by simp [UPc.rank], ?_, ?_⟩
    · intro h
      simp [UPc.holds] at h
    · intro _
      exact ⟨rfl, by simp; omega⟩

/-- Claim C9: for a positive `maxConcurrency`, in every reachable state the goroutines
that hold a slot are exactly `len(semaphore)` many and at most `maxConcurrency`; and a
goroutine that holds a slot can always move on, however the system calls answer, and
gives the slot back when it leaves. -/
theorem semaphore_bounds_running_units (P : Platform) (cfg : Config) (matched : List String)
    (acts : List Action) (s : State) (hpos : 0 < cfg.maxConcurrency)
    (hrun : run P cfg matched (init matched) acts = some s) :
    (holding s.units : Int) ≤ cfg.maxConcurrency ∧ holding s.units = s.semaphore ∧
    ∀ (i : Nat) (u : WorkUnit) (env : Env), s.units[i]? = some (some u) →
      u.pc.holds = true →
      ∃ (s' : State) (u' : WorkUnit),
        step P cfg matched s ⟨Thread.unit i, env⟩ = some s' ∧
        s'.units[i]? = some (some u') ∧ u'.pc.rank < u.pc.rank ∧
        (u'.pc.holds = true → s'.semaphore = s.semaphore) ∧
        (u'.pc.holds = false → u'.pc = UPc.done ∧ s'.semaphore + 1 = s.semaphore) := by
  have hI := inv_run P cfg matched acts s hrun
  refine ⟨?_, hI.sem, ?_⟩
  · rw [hI.sem]
    rcases hI.semLe with h0 | h1
    · rw [h0]
      exact Int.le_of_lt hpos
    · exact h1
  · intro i u env hu hh
    exact holder_progress P cfg matched s hI.sem i u env hu hh

theorem semaphore_bounds_running_units_witness :
    holding (finalState unixPlatform (defaultConfig "output" 1) ["a.avi", "b.mkv"]
      saturatedRun).units = 1 ∧
    step unixPlatform (defaultConfig "output" 1) ["a.avi", "b.mkv"]
      (finalState unixPlatform (defaultConfig "output" 1) ["a.avi", "b.mkv"] saturatedRun)
      (unitAct 0) = none ∧
    (holding (finalState unixPlatform (defaultConfig "output" 1) ["a.avi", "b.mkv"]
      saturatedRun).units : Int) ≤ 1 :=
  ⟨by decide, by decide,
   (semaphore_bounds_running_units unixPlatform (defaultConfig "output" 1) ["a.avi", "b.mkv"]
      saturatedRun
      (finalState unixPlatform (defaultConfig "output" 1) ["a.avi", "b.mkv"] saturatedRun)
      (by decide) (by decide)).1⟩

/-- When every `os.Stat` fails, `main` alone walks the rest of the list, no goroutine is
started, and the program reports. -/
theorem statFailRun_exits (P : Platform) (cfg : Config) (matched : List String) :
    ∀ (rest : List String) (s : State), s.pc = MPc.loop → s.wg = 0 →
      matched.drop s.idx = rest →
      ∃ s' : State, run P cfg matched s (statFailRun P rest) = some s' ∧
        s'.pc = MPc.exited ∧
        s'.totalNum = s.totalNum + rest.countP (isVideoFile P.goos P.caseTable) := by
  intro rest
  induction rest with
  | nil =>
    intro s hpc hwg hdrop
    have hget : matched[s.idx]? = none := by
      rw [List.getElem?_eq_none_iff]
      exact List.drop_eq_nil_iff.mp hdrop
    refine ⟨{ s with pc := MPc.exited }, ?_, rfl, by simp⟩
    simp [statFailRun, run, step, mainStep, mainAct, hpc, hget, hwg]
  | cons p rest ih =>
    intro s hpc hwg hdrop
    have hget : matched[s.idx]? = some p := by
      have h0 : (matched.drop s.idx)[0]? = matched[s.idx + 0]? := List.getElem?_drop _ _ _
      rw [hdrop] at h0
      simpa using h0.symm
    have hdrop' : matched.drop (s.idx + 1) = rest := by
      have := List.drop_drop 1 s.idx matched
      rw [hdrop] at this
      simpa [Nat.add_comm] using this.symm
    by_cases hv : isVideoFile P.goos P.caseTable p = true
    · obtain ⟨s', hrun', hexit, htot⟩ := ih
        { s with totalNum := s.totalNum + 1, failNum := s.failNum + 1, pc := MPc.loop,
                 idx := s.idx + 1, trace := s.trace ++ [⟨s.idx, Op.stat none⟩] ++
                   [⟨s.idx, Op.mainFail⟩] } rfl hwg hdrop'
      refine ⟨s', ?_, hexit, ?_⟩
      · simp [statFailRun, hv, run, step, mainStep, mainAct, hpc, hget]
        simpa using hrun'
      · rw [htot]
        simp [List.countP_cons, hv]
        omega
    · have hv' : isVideoFile P.goos P.caseTable p = false := by simpa using hv
      obtain ⟨s', hrun', hexit, htot⟩ := ih { s with idx := s.idx + 1 } hpc hwg hdrop'
      refine ⟨s', ?_, hexit, ?_⟩
      · simp [statFailRun, hv', run, step, mainStep, mainAct, hpc, hget]
        simpa [hpc] using hrun'
      · rw [htot]
        simp [List.countP_cons, hv']


/-- Claim C10: `totalNum` counts the video paths among the files `main` has looked at, so
the total reported after the loop is the number of video paths in the list; a path that
is not a video gets no goroutine and no operation at all, and its step changes nothing
but the loop index.  When `maxConcurrency` is not negative a run that reports exists. -/
theorem total_counts_video_files (P : Platform) (cfg : Config) (matched : List String)
    (acts : List Action) (s : State)
    (hrun : run P cfg matched (init matched) acts = some s) :
    s.totalNum =
      (matched.take s.idx).countP (isVideoFile P.goos P.caseTable) +
        (if s.pc.inBody = true then 1 else 0) ∧
    (s.pc = MPc.wait ∨ s.pc = MPc.exited →
      s.totalNum = matched.countP (isVideoFile P.goos P.caseTable)) ∧
    (∀ (i : Nat) (p : String), matched[i]? = some p →
      isVideoFile P.goos P.caseTable p = false →
        s.units[i]? = some none ∧ ∀ e ∈ s.trace, e.file ≠ i) ∧
    (∀ (p : String) (env : Env), s.pc = MPc.loop → matched[s.idx]? = some p →
      isVideoFile P.goos P.caseTable p = false →
        step P cfg matched s ⟨Thread.main, env⟩ = some { s with idx := s.idx + 1 }) ∧
    (0 ≤ cfg.maxConcurrency →
      ∃ (acts' : List Action) (s' : State),
        run P cfg matched (init matched) acts' = some s' ∧ s'.pc = MPc.exited ∧
        s'.totalNum = matched.countP (isVideoFile P.goos P.caseTable)) := by
  have hI := inv_run P cfg matched acts s hrun
  refine ⟨hI.total, ?_, ?_, ?_, ?_⟩
  · intro hend
    have hle := hI.atEnd hend
    have hbody : s.pc.inBody = false := by
      rcases hend with h | h <;> rw [h] <;> rfl
    rw [hI.total, List.take_of_length_le hle, hbody]
    simp
  · intro i p hp hv
    have hlt : i < matched.length := by
      rcases List.getElem?_eq_some.mp hp with ⟨hlt, -⟩
      exact hlt
    refine ⟨?_, ?_⟩
    · have hlen := hI.len
      cases hslot : s.units[i]? with
      | none =>
        have := List.getElem?_eq_none_iff.mp hslot
        omega
      | some slot =>
        cases slot with
        | none => rfl
        | some u =>
          obtain ⟨-, h2, h3, -⟩ := hI.spawned i u hslot
          rw [hp] at h2
          cases h2
          rw [hv] at h3
          cases h3
    · intro e he hfile
      obtain ⟨q, hq, hvq⟩ := hI.video e he
      rw [hfile, hp] at hq
      cases hq
      rw [hv] at hvq
      cases hvq
  · intro p env hpc hp hv
    simp [step, mainStep, hpc, hp, hv]
  · intro hnn
    obtain ⟨s', hrun', hexit, htot⟩ := statFailRun_exits P cfg matched matched
      { init matched with pc := MPc.loop } rfl rfl rfl
    refine ⟨mainAct :: statFailRun P matched, s', ?_, hexit, ?_⟩
    · have hnot : ¬ cfg.maxConcurrency < 0 := by omega
      simp only [run, step, mainStep, mainAct, init, hnot, if_false]
      exact hrun'
    · rw [htot]
      simp [init]

theorem total_counts_video_files_witness :
    (finalState unixPlatform (defaultConfig "output" 4) scenarioFiles scenarioRun).pc
      = MPc.exited ∧
    scenarioFiles.countP (isVideoFile GOOS.unix id) = 2 ∧
    (finalState unixPlatform (defaultConfig "output" 4) scenarioFiles scenarioRun).totalNum
      = scenarioFiles.countP (isVideoFile unixPlatform.goos unixPlatform.caseTable) :=
  ⟨by decide, by decide,
   (total_counts_video_files unixPlatform (defaultConfig "output" 4) scenarioFiles scenarioRun
      (finalState unixPlatform (defaultConfig "output" 4) scenarioFiles scenarioRun)
      (by decide)).2.1 (Or.inr (by decide))⟩

end VideoProcessor
